import Mathlib

/-!
# Verification of the session-ticket subsystem (ticket.go)

Shallow embedding of `ticket.go` from the `tls` package: the two session-state
shapes (`sessionState`, `sessionState13`) with their `equal`, `marshal` and
`unmarshal` methods, and the ticket sealing/opening pair
(`encryptTicket` / `decryptTicket`).

Modelling conventions:

* Bytes are `Nat`; a read of a Go `byte` value applies `% 256` (the `uint8`
  type of the source guarantees the value is below 256, so on genuine byte
  input the reduction is the identity).  Big-endian multi-byte reads such as
  `uint16(data[0])<<8 | uint16(data[1])` become `a % 256 * 256 + b % 256`
  (`r16` below), which is the exact value of the Go expression on byte input.
* Writes `byte(v >> k)` become `v / 2^k % 256` (`u16`/`u32`/`u64` below).
* Go slices `data[:n]` / `data[n:]` become `List.take` / `List.drop`; indexed
  reads `data[i]` (always guarded by a length check in the source) become
  `List.getD data i 0`.
* The receiver mutation of `unmarshal` (a method on a pointer in Go) is
  modelled by passing the receiver in and returning the updated receiver next
  to the `bool` result: partially-populated receivers on failure paths are
  preserved by the model.
* The Go `int` type is modelled as it behaves on 64-bit platforms: the 4-byte
  certificate-length read yields a value below `2^32`, so the source's
  `certLen < 0` test is kept (on an `Int`) but can never fire.
* `crypto/aes` in CTR mode and `crypto/hmac` with SHA-256 are external
  primitives (Go standard library, outside this repository).  They are
  abstracted by a `CryptoPrims` bundle: a deterministic keystream indexed by
  (AES key, IV, byte position) — exactly the shape of CTR mode — and a
  deterministic MAC whose tag is always `sha256.Size` bytes long.
  `aes.NewCipher` fails exactly when the key length is not 16, 24 or 32.
* `subtle.ConstantTimeCompare` is embedded by its Go source: a length check
  followed by a fold that ORs together the XOR of every byte pair, with an
  instrumented variant counting the byte operations performed.
-/

/-! ## Byte-level primitives -/

/-- Big-endian two-byte write: `byte(v >> 8), byte(v)`. -/
def u16 (v : Nat) : List Nat := [v / 256 % 256, v % 256]

/-- Big-endian four-byte write: `byte(v >> 24), ..., byte(v)`. -/
def u32 (v : Nat) : List Nat :=
  [v / 16777216 % 256, v / 65536 % 256, v / 256 % 256, v % 256]

/-- Big-endian eight-byte write: `byte(v >> 56), ..., byte(v)`. -/
def u64 (v : Nat) : List Nat :=
  [v / 72057594037927936 % 256, v / 281474976710656 % 256,
   v / 1099511627776 % 256, v / 4294967296 % 256,
   v / 16777216 % 256, v / 65536 % 256, v / 256 % 256, v % 256]

/-- Big-endian two-byte read: `uint16(a)<<8 | uint16(b)` on bytes `a`, `b`. -/
def r16 (a b : Nat) : Nat := a % 256 * 256 + b % 256

/-- Big-endian four-byte read. -/
def r32 (a b c d : Nat) : Nat :=
  a % 256 * 16777216 + b % 256 * 65536 + c % 256 * 256 + d % 256

/-- Big-endian eight-byte read. -/
def r64 (a b c d e f g h : Nat) : Nat :=
  a % 256 * 72057594037927936 + b % 256 * 281474976710656 +
  c % 256 * 1099511627776 + d % 256 * 4294967296 +
  e % 256 * 16777216 + f % 256 * 65536 + g % 256 * 256 + h % 256

/-! ## Session state, v1.2 shape (`sessionState`) -/

/-- `sessionState` from ticket.go: the v1.2-style resumable session data.
`usedOldKey` is bookkeeping set by the ticket-opening caller; it is not
serialized. -/
structure sessionState where
  vers : Nat
  cipherSuite : Nat
  masterSecret : List Nat
  certificates : List (List Nat)
  usedOldKey : Bool
deriving DecidableEq

/-- `sessionState13` from ticket.go: the v1.3-style resumable session data.
Go strings are byte sequences, so `alpnProtocol` and `SNI` are `List Nat`. -/
structure sessionState13 where
  vers : Nat
  suite : Nat
  ageAdd : Nat
  createdAt : Nat
  maxEarlyDataLen : Nat
  resumptionSecret : List Nat
  alpnProtocol : List Nat
  SNI : List Nat
deriving DecidableEq

/-- The dynamic (`interface{}`) argument of the `equal` methods, restricted to
the session-state shapes of this file. -/
inductive ticketSessionValue where
  | v12 (s : sessionState)
  | v13 (s : sessionState13)
deriving DecidableEq

/-- `bytes.Equal`: content equality of byte sequences. -/
def bytesEqual (a b : List Nat) : Bool := a == b

/-- `sessionState.equal` from ticket.go: type assertion, then the scalar
fields and `masterSecret`, then the certificate count, then each certificate
by content. -/
def sessionState.equal (s : sessionState) (i : ticketSessionValue) : Bool :=
  match i with
  | .v13 _ => false
  | .v12 s1 =>
    if s.vers != s1.vers || s.cipherSuite != s1.cipherSuite ||
        !bytesEqual s.masterSecret s1.masterSecret then
      false
    else if s.certificates.length != s1.certificates.length then
      false
    else
      (s.certificates.zip s1.certificates).all fun p => bytesEqual p.1 p.2

/-- `sessionState13.equal` from ticket.go: type assertion, then all eight
fields compared by content. -/
def sessionState13.equal (s : sessionState13) (i : ticketSessionValue) : Bool :=
  match i with
  | .v12 _ => false
  | .v13 s1 =>
    s.vers == s1.vers && s.suite == s1.suite && s.ageAdd == s1.ageAdd &&
    s.createdAt == s1.createdAt && s.maxEarlyDataLen == s1.maxEarlyDataLen &&
    bytesEqual s.resumptionSecret s1.resumptionSecret &&
    s.alpnProtocol == s1.alpnProtocol && s.SNI == s1.SNI

/-- `sessionState.marshal` from ticket.go:
`version(2) | cipherSuite(2) | len(masterSecret)(2) | masterSecret |
 numCerts(2) | {len(cert)(4) | cert}*`, all big-endian. -/
def sessionState.marshal (s : sessionState) : List Nat :=
  u16 s.vers ++ u16 s.cipherSuite ++
  u16 s.masterSecret.length ++ s.masterSecret ++
  u16 s.certificates.length ++
  (s.certificates.map fun cert => u32 cert.length ++ cert).flatten

/-- The certificate loop of `sessionState.unmarshal`: `n` iterations remain;
returns the decoded `s.certificates` value, the leftover input, and the
success flag.  On a failed iteration Go leaves the not-yet-decoded slots of
the pre-allocated `make([][]byte, numCerts)` as nil, modelled by `[]`. -/
def unmarshalCerts : Nat → List Nat → List (List Nat) × List Nat × Bool
  | 0, data => ([], data, true)
  | n + 1, data =>
    if data.length < 4 then
      (List.replicate (n + 1) [], data, false)
    else
      let certLen : Int := Int.ofNat
        (r32 (data.getD 0 0) (data.getD 1 0) (data.getD 2 0) (data.getD 3 0))
      let rest := data.drop 4
      if certLen < 0 then
        (List.replicate (n + 1) [], rest, false)
      else if rest.length < certLen.toNat then
        (List.replicate (n + 1) [], rest, false)
      else
        let r := unmarshalCerts n (rest.drop certLen.toNat)
        (rest.take certLen.toNat :: r.1, r.2.1, r.2.2)

/-- `sessionState.unmarshal` from ticket.go.  The returned state is the final
value of the pointer receiver (fields assigned before a failing check keep
their decoded values); the `Bool` is the Go return value, with the source's
final `return len(data) == 0` trailing-bytes check. -/
def sessionState.unmarshal (s : sessionState) (data : List Nat) :
    sessionState × Bool :=
  if data.length < 8 then (s, false)
  else
    let s1 := { s with vers := r16 (data.getD 0 0) (data.getD 1 0),
                       cipherSuite := r16 (data.getD 2 0) (data.getD 3 0) }
    let masterSecretLen := r16 (data.getD 4 0) (data.getD 5 0)
    let d1 := data.drop 6
    if d1.length < masterSecretLen then (s1, false)
    else
      let s2 := { s1 with masterSecret := d1.take masterSecretLen }
      let d2 := d1.drop masterSecretLen
      if d2.length < 2 then (s2, false)
      else
        let numCerts := r16 (d2.getD 0 0) (d2.getD 1 0)
        let d3 := d2.drop 2
        let r := unmarshalCerts numCerts d3
        ({ s2 with certificates := r.1 }, r.2.2 && (r.2.1.length == 0))

/-- `sessionState13.marshal` from ticket.go:
`version(2) | suite(2) | ageAdd(4) | createdAt(8) | maxEarlyDataLen(4) |
 len(resumptionSecret)(2) | resumptionSecret | len(alpnProtocol)(2) |
 alpnProtocol | len(SNI)(2) | SNI`. -/
def sessionState13.marshal (s : sessionState13) : List Nat :=
  u16 s.vers ++ u16 s.suite ++ u32 s.ageAdd ++ u64 s.createdAt ++
  u32 s.maxEarlyDataLen ++
  u16 s.resumptionSecret.length ++ s.resumptionSecret ++
  u16 s.alpnProtocol.length ++ s.alpnProtocol ++
  u16 s.SNI.length ++ s.SNI

/-- `sessionState13.unmarshal` from ticket.go, with the same receiver-passing
convention as `sessionState.unmarshal`. -/
def sessionState13.unmarshal (s : sessionState13) (data : List Nat) :
    sessionState13 × Bool :=
  if data.length < 24 then (s, false)
  else
    let s1 := { s with
      vers := r16 (data.getD 0 0) (data.getD 1 0),
      suite := r16 (data.getD 2 0) (data.getD 3 0),
      ageAdd := r32 (data.getD 4 0) (data.getD 5 0) (data.getD 6 0) (data.getD 7 0),
      createdAt := r64 (data.getD 8 0) (data.getD 9 0) (data.getD 10 0)
        (data.getD 11 0) (data.getD 12 0) (data.getD 13 0) (data.getD 14 0)
        (data.getD 15 0),
      maxEarlyDataLen := r32 (data.getD 16 0) (data.getD 17 0) (data.getD 18 0)
        (data.getD 19 0) }
    let l1 := r16 (data.getD 20 0) (data.getD 21 0)
    if data.length < 22 + l1 + 2 then (s1, false)
    else
      let s2 := { s1 with resumptionSecret := (data.drop 22).take l1 }
      let z := data.drop (22 + l1)
      let l2 := r16 (z.getD 0 0) (z.getD 1 0)
      if z.length < 2 + l2 + 2 then (s2, false)
      else
        let s3 := { s2 with alpnProtocol := (z.drop 2).take l2 }
        let z2 := z.drop (2 + l2)
        let l3 := r16 (z2.getD 0 0) (z2.getD 1 0)
        if z2.length ≠ 2 + l3 then (s3, false)
        else ({ s3 with SNI := (z2.drop 2).take l3 }, true)

/-! ## Ticket sealing and opening -/

/-- `ticketKeyNameLen` (modelled from the spec: the key-name constant lives in
the surrounding package, outside src/; the spec fixes it at 16 bytes). -/
def ticketKeyNameLen : Nat := 16

/-- `aes.BlockSize` from the Go standard library. -/
def aesBlockSize : Nat := 16

/-- `sha256.Size` from the Go standard library. -/
def sha256Size : Nat := 32

/-- A ticket key (modelled from the spec: the `ticketKey` struct lives in the
surrounding package, outside src/): fixed-size key name plus the AES and HMAC
key material; the fixed sizes are carried as hypotheses where needed. -/
structure ticketKey where
  keyName : List Nat
  aesKey : List Nat
  hmacKey : List Nat
deriving DecidableEq

/-- Abstract deterministic cryptographic primitives standing for the Go
standard library's AES-CTR keystream and HMAC-SHA256:
`keyStream k iv i` is byte `i` of the CTR keystream for AES key `k` and
IV `iv`; `macSum k m` is the HMAC-SHA256 tag of `m` under key `k`, always
`sha256.Size` bytes. -/
structure CryptoPrims where
  keyStream : List Nat → List Nat → Nat → Nat
  macSum : List Nat → List Nat → List Nat
  macSum_length : ∀ k m, (macSum k m).length = sha256Size

/-- `aes.NewCipher` succeeds exactly when the key is 16, 24 or 32 bytes. -/
def aesNewCipherOk (key : List Nat) : Bool :=
  key.length == 16 || key.length == 24 || key.length == 32

/-- `XORKeyStream` body: XOR the data against the keystream from position `i`. -/
def xorStreamFrom (ks : Nat → Nat) : Nat → List Nat → List Nat
  | _, [] => []
  | i, b :: bs => (b ^^^ ks i) :: xorStreamFrom ks (i + 1) bs

/-- `cipher.NewCTR(block, iv).XORKeyStream`: XOR against the keystream of
(AES key, IV) starting at position 0. -/
def xorKeyStream (cp : CryptoPrims) (aesKey iv data : List Nat) : List Nat :=
  xorStreamFrom (cp.keyStream aesKey iv) 0 data

/-- `Conn.encryptTicket` from ticket.go: draw a fresh IV from the random
source (failing if it cannot supply `aes.BlockSize` bytes), take the key at
index 0 (Go panics on an empty configured key list; modelled as failure),
build `keyName | IV | CTR-ciphertext | HMAC over everything before the MAC`.
`randBytes` is the byte stream the connection's random source yields. -/
def encryptTicket (cp : CryptoPrims) (keys : List ticketKey)
    (randBytes : List Nat) (serialized : List Nat) : Option (List Nat) :=
  if randBytes.length < aesBlockSize then none
  else
    match keys with
    | [] => none
    | key :: _ =>
      let iv := randBytes.take aesBlockSize
      if !aesNewCipherOk key.aesKey then none
      else
        let ciphertext := xorKeyStream cp key.aesKey iv serialized
        let body := key.keyName ++ iv ++ ciphertext
        some (body ++ cp.macSum key.hmacKey body)

/-- The key-lookup loop of `Conn.decryptTicket`: first index (and key) whose
`keyName` equals the ticket's key-name field, `none` for Go's `keyIndex == -1`. -/
def findTicketKey : List ticketKey → List Nat → Option (Nat × ticketKey)
  | [], _ => none
  | k :: ks, name =>
    if bytesEqual name k.keyName then some (0, k)
    else
      match findTicketKey ks name with
      | none => none
      | some r => some (r.1 + 1, r.2)

/-- The loop of `subtle.ConstantTimeCompare`: OR together the XOR of every
byte pair, starting from accumulator `v`. -/
def ctOrFold : Nat → List (Nat × Nat) → Nat
  | v, [] => v
  | v, p :: rest => ctOrFold (v ||| (p.1 ^^^ p.2)) rest

/-- `subtle.ConstantTimeCompare` from the Go standard library: 0 on a length
mismatch, otherwise 1 exactly when the OR-of-XORs over all byte pairs is 0. -/
def constantTimeCompare (x y : List Nat) : Nat :=
  if x.length != y.length then 0
  else if ctOrFold 0 (x.zip y) == 0 then 1 else 0

/-- Instrumented `ctOrFold` additionally counting the byte operations
performed (one per loop iteration). -/
def ctOrFoldSteps : Nat → List (Nat × Nat) → Nat × Nat
  | v, [] => (v, 0)
  | v, p :: rest =>
    let r := ctOrFoldSteps (v ||| (p.1 ^^^ p.2)) rest
    (r.1, r.2 + 1)

/-- Instrumented `subtle.ConstantTimeCompare`: the comparison result together
with the number of byte operations the loop performs. -/
def constantTimeCompareCounted (x y : List Nat) : Nat × Nat :=
  if x.length != y.length then (0, 0)
  else
    let r := ctOrFoldSteps 0 (x.zip y)
    ((if r.1 == 0 then 1 else 0), r.2)

/-- `Conn.decryptTicket` from ticket.go: fail closed when the feature is
disabled or the ticket is shorter than the fixed envelope; split off key
name, IV and MAC; look the key up by name; verify the MAC with the
constant-time comparison; build the cipher; decrypt; report whether a
non-primary key was used. -/
def decryptTicket (cp : CryptoPrims) (sessionTicketsDisabled : Bool)
    (keys : List ticketKey) (encrypted : List Nat) :
    Option (List Nat) × Bool :=
  if sessionTicketsDisabled ||
      encrypted.length < ticketKeyNameLen + aesBlockSize + sha256Size then
    (none, false)
  else
    let keyName := encrypted.take ticketKeyNameLen
    let iv := (encrypted.drop ticketKeyNameLen).take aesBlockSize
    let macBytes := encrypted.drop (encrypted.length - sha256Size)
    match findTicketKey keys keyName with
    | none => (none, false)
    | some ik =>
      let key := ik.2
      let expected :=
        cp.macSum key.hmacKey (encrypted.take (encrypted.length - sha256Size))
      if constantTimeCompare macBytes expected != 1 then (none, false)
      else if !aesNewCipherOk key.aesKey then (none, false)
      else
        let ciphertext := (encrypted.drop (ticketKeyNameLen + aesBlockSize)).take
          (encrypted.length - sha256Size - (ticketKeyNameLen + aesBlockSize))
        (some (xorKeyStream cp key.aesKey iv ciphertext), decide (ik.1 > 0))

/-! ## Well-formedness predicates -/

/-- Every entry of the list is a byte value. -/
def allBytes (l : List Nat) : Prop := ∀ b ∈ l, b < 256

instance (l : List Nat) : Decidable (allBytes l) := by
  unfold allBytes; infer_instance

/-- The integer-field bounds the Go types `uint16` impose on `sessionState`. -/
def wf12 (s : sessionState) : Prop := s.vers < 65536 ∧ s.cipherSuite < 65536

instance (s : sessionState) : Decidable (wf12 s) := by
  unfold wf12; infer_instance

/-- The v1.2 field-width limits: `masterSecret` length and certificate count
fit their 16-bit prefixes, each certificate length fits its 32-bit prefix. -/
def limits12 (s : sessionState) : Prop :=
  s.masterSecret.length < 65536 ∧ s.certificates.length < 65536 ∧
  ∀ c ∈ s.certificates, c.length < 4294967296

instance (s : sessionState) : Decidable (limits12 s) := by
  unfold limits12; infer_instance

/-- The variable-length fields of `sessionState` hold byte values. -/
def bytes12 (s : sessionState) : Prop :=
  allBytes s.masterSecret ∧ ∀ c ∈ s.certificates, allBytes c

instance (s : sessionState) : Decidable (bytes12 s) := by
  unfold bytes12; infer_instance

/-- The integer-field bounds the Go types impose on `sessionState13`. -/
def wf13 (s : sessionState13) : Prop :=
  s.vers < 65536 ∧ s.suite < 65536 ∧ s.ageAdd < 4294967296 ∧
  s.createdAt < 18446744073709551616 ∧ s.maxEarlyDataLen < 4294967296

instance (s : sessionState13) : Decidable (wf13 s) := by
  unfold wf13; infer_instance

/-- The v1.3 field-width limits: the three variable-length fields fit their
16-bit prefixes. -/
def limits13 (s : sessionState13) : Prop :=
  s.resumptionSecret.length < 65536 ∧ s.alpnProtocol.length < 65536 ∧
  s.SNI.length < 65536

instance (s : sessionState13) : Decidable (limits13 s) := by
  unfold limits13; infer_instance

/-- The variable-length fields of `sessionState13` hold byte values. -/
def bytes13 (s : sessionState13) : Prop :=
  allBytes s.resumptionSecret ∧ allBytes s.alpnProtocol ∧ allBytes s.SNI

instance (s : sessionState13) : Decidable (bytes13 s) := by
  unfold bytes13; infer_instance

/-- A trivial concrete instance of the abstract crypto primitives (constant
keystream, constant MAC), used to evaluate the sealing theorems on concrete
inputs. -/
def constCrypto : CryptoPrims where
  keyStream := fun _ _ _ => 0
  macSum := fun _ _ => List.replicate sha256Size 0
  macSum_length := fun _ _ => by simp

/-- A concrete ticket key, used to evaluate the sealing theorems. -/
def tkA : ticketKey where
  keyName := List.replicate 16 0
  aesKey := List.replicate 16 1
  hmacKey := List.replicate 16 2

/-! ## Arithmetic helper lemmas: read/write inverses -/

theorem r16_u16 (v : Nat) (h : v < 65536) : r16 (v / 256 % 256) (v % 256) = v := by
  unfold r16; omega

theorem r32_u32 (v : Nat) (h : v < 4294967296) :
    r32 (v / 16777216 % 256) (v / 65536 % 256) (v / 256 % 256) (v % 256) = v := by
  unfold r32; omega

set_option maxHeartbeats 2000000 in
theorem r64_u64 (v : Nat) (h : v < 18446744073709551616) :
    r64 (v / 72057594037927936 % 256) (v / 281474976710656 % 256)
      (v / 1099511627776 % 256) (v / 4294967296 % 256) (v / 16777216 % 256)
      (v / 65536 % 256) (v / 256 % 256) (v % 256) = v := by
  unfold r64; omega

theorem u16_r16 (a b : Nat) (ha : a < 256) (hb : b < 256) :
    u16 (r16 a b) = [a, b] := by
  unfold u16 r16
  refine List.cons_eq_cons.mpr ⟨by omega, ?_⟩
  refine List.cons_eq_cons.mpr ⟨by omega, rfl⟩

theorem u32_r32 (a b c d : Nat) (ha : a < 256) (hb : b < 256) (hc : c < 256)
    (hd : d < 256) : u32 (r32 a b c d) = [a, b, c, d] := by
  unfold u32 r32
  refine List.cons_eq_cons.mpr ⟨by omega, ?_⟩
  refine List.cons_eq_cons.mpr ⟨by omega, ?_⟩
  refine List.cons_eq_cons.mpr ⟨by omega, ?_⟩
  refine List.cons_eq_cons.mpr ⟨by omega, rfl⟩

theorem r16_lt (a b : Nat) : r16 a b < 65536 := by unfold r16; omega

theorem r32_lt (a b c d : Nat) : r32 a b c d < 4294967296 := by unfold r32; omega

theorem r64_lt (a b c d e f g h : Nat) :
    r64 a b c d e f g h < 18446744073709551616 := by unfold r64; omega

/-! ## List decomposition helpers -/

theorem exists_len2 (l : List Nat) (h : 2 ≤ l.length) :
    ∃ a b rest, l = a :: b :: rest := by
  rcases l with _ | ⟨a, _ | ⟨b, rest⟩⟩
  all_goals try (exfalso; simp only [List.length_nil, List.length_cons] at h; omega)
  exact ⟨a, b, rest, rfl⟩

theorem exists_len4 (l : List Nat) (h : 4 ≤ l.length) :
    ∃ a b c d rest, l = a :: b :: c :: d :: rest := by
  rcases l with _ | ⟨a, _ | ⟨b, _ | ⟨c, _ | ⟨d, rest⟩⟩⟩⟩
  all_goals try (exfalso; simp only [List.length_nil, List.length_cons] at h; omega)
  exact ⟨a, b, c, d, rest, rfl⟩

theorem exists_len6 (l : List Nat) (h : 6 ≤ l.length) :
    ∃ a b c d e f rest, l = a :: b :: c :: d :: e :: f :: rest := by
  rcases l with _ | ⟨a, _ | ⟨b, _ | ⟨c, _ | ⟨d, _ | ⟨e, _ | ⟨f, rest⟩⟩⟩⟩⟩⟩
  all_goals try (exfalso; simp only [List.length_nil, List.length_cons] at h; omega)
  exact ⟨a, b, c, d, e, f, rest, rfl⟩

theorem exists_len22 (l : List Nat) (h : 22 ≤ l.length) :
    ∃ b0 b1 b2 b3 b4 b5 b6 b7 b8 b9 b10 b11 b12 b13 b14 b15 b16 b17 b18 b19 b20 b21 rest,
      l = b0 :: b1 :: b2 :: b3 :: b4 :: b5 :: b6 :: b7 :: b8 :: b9 :: b10 :: b11 :: b12 :: b13 :: b14 :: b15 :: b16 :: b17 :: b18 :: b19 :: b20 :: b21 :: rest := by
  rcases l with _ | ⟨b0, _ | ⟨b1, _ | ⟨b2, _ | ⟨b3, _ | ⟨b4, _ | ⟨b5, _ | ⟨b6, _ | ⟨b7, _ | ⟨b8, _ | ⟨b9, _ | ⟨b10, _ | ⟨b11, _ | ⟨b12, _ | ⟨b13, _ | ⟨b14, _ | ⟨b15, _ | ⟨b16, _ | ⟨b17, _ | ⟨b18, _ | ⟨b19, _ | ⟨b20, _ | ⟨b21, rest⟩⟩⟩⟩⟩⟩⟩⟩⟩⟩⟩⟩⟩⟩⟩⟩⟩⟩⟩⟩⟩⟩
  all_goals try (exfalso; simp only [List.length_nil, List.length_cons] at h; omega)
  exact ⟨b0, b1, b2, b3, b4, b5, b6, b7, b8, b9, b10, b11, b12, b13, b14, b15, b16, b17, b18, b19, b20, b21, rest, rfl⟩

/-! ## Byte-range helpers -/

theorem allBytes_u16 (v : Nat) : allBytes (u16 v) := by
  unfold allBytes u16; intro b hb
  simp only [List.mem_cons, List.not_mem_nil, or_false] at hb
  rcases hb with rfl | rfl <;> omega

theorem allBytes_u32 (v : Nat) : allBytes (u32 v) := by
  unfold allBytes u32; intro b hb
  simp only [List.mem_cons, List.not_mem_nil, or_false] at hb
  rcases hb with rfl | rfl | rfl | rfl <;> omega

theorem allBytes_u64 (v : Nat) : allBytes (u64 v) := by
  unfold allBytes u64; intro b hb
  simp only [List.mem_cons, List.not_mem_nil, or_false] at hb
  rcases hb with rfl | rfl | rfl | rfl | rfl | rfl | rfl | rfl <;> omega

theorem allBytes_append (a b : List Nat) :
    allBytes (a ++ b) ↔ allBytes a ∧ allBytes b := by
  unfold allBytes
  constructor
  · intro h
    exact ⟨fun x hx => h x (List.mem_append_left b hx),
           fun x hx => h x (List.mem_append_right a hx)⟩
  · rintro ⟨h1, h2⟩ x hx
    rcases List.mem_append.mp hx with hx | hx
    · exact h1 x hx
    · exact h2 x hx

theorem allBytes_take (l : List Nat) (n : Nat) (h : allBytes l) :
    allBytes (l.take n) := fun b hb => h b (List.take_subset n l hb)

theorem allBytes_drop (l : List Nat) (n : Nat) (h : allBytes l) :
    allBytes (l.drop n) := fun b hb => h b (List.drop_subset n l hb)

theorem allBytes_cons (a : Nat) (l : List Nat) :
    allBytes (a :: l) ↔ a < 256 ∧ allBytes l := by
  unfold allBytes
  simp [List.forall_mem_cons]

/-- The v1.2 encoder emits only byte values when the state's variable-length
fields hold byte values. -/
theorem allBytes_marshal (s : sessionState) (h : bytes12 s) :
    allBytes s.marshal := by
  obtain ⟨hm, hc⟩ := h
  unfold sessionState.marshal
  intro b hb
  simp only [List.mem_append] at hb
  rcases hb with ((((h1 | h2) | h3) | h4) | h5) | h6
  · exact allBytes_u16 s.vers b h1
  · exact allBytes_u16 s.cipherSuite b h2
  · exact allBytes_u16 s.masterSecret.length b h3
  · exact hm b h4
  · exact allBytes_u16 s.certificates.length b h5
  · rcases List.mem_flatten.mp h6 with ⟨l, hl, hbl⟩
    rcases List.mem_map.mp hl with ⟨cert, hcert, rfl⟩
    rcases List.mem_append.mp hbl with hb4 | hbc
    · exact allBytes_u32 cert.length b hb4
    · exact hc cert hcert b hbc

/-- The v1.3 encoder emits only byte values when the state's variable-length
fields hold byte values. -/
theorem allBytes_marshal13 (s : sessionState13) (h : bytes13 s) :
    allBytes s.marshal := by
  obtain ⟨hr, ha, hs⟩ := h
  unfold sessionState13.marshal
  intro b hb
  simp only [List.mem_append] at hb
  rcases hb with (((((((((h1 | h2) | h3) | h4) | h5) | h6) | h7) | h8) | h9) | h10) | h11
  · exact allBytes_u16 s.vers b h1
  · exact allBytes_u16 s.suite b h2
  · exact allBytes_u32 s.ageAdd b h3
  · exact allBytes_u64 s.createdAt b h4
  · exact allBytes_u32 s.maxEarlyDataLen b h5
  · exact allBytes_u16 s.resumptionSecret.length b h6
  · exact hr b h7
  · exact allBytes_u16 s.alpnProtocol.length b h8
  · exact ha b h9
  · exact allBytes_u16 s.SNI.length b h10
  · exact hs b h11

/-! ## Crypto-primitive helper lemmas -/

theorem xorStreamFrom_length (ks : Nat → Nat) (i : Nat) (l : List Nat) :
    (xorStreamFrom ks i l).length = l.length := by
  induction l generalizing i with
  | nil => rfl
  | cons b bs ih => simp [xorStreamFrom, ih]

/-- XOR-ing against the same keystream twice restores the plaintext. -/
theorem xorStreamFrom_xorStreamFrom (ks : Nat → Nat) (i : Nat) (l : List Nat) :
    xorStreamFrom ks i (xorStreamFrom ks i l) = l := by
  induction l generalizing i with
  | nil => rfl
  | cons b bs ih =>
    simp only [xorStreamFrom, List.cons.injEq]
    exact ⟨Nat.xor_cancel_right (ks i) b, ih (i + 1)⟩

theorem xorKeyStream_length (cp : CryptoPrims) (k iv l : List Nat) :
    (xorKeyStream cp k iv l).length = l.length := xorStreamFrom_length _ 0 l

theorem xorKeyStream_xorKeyStream (cp : CryptoPrims) (k iv l : List Nat) :
    xorKeyStream cp k iv (xorKeyStream cp k iv l) = l :=
  xorStreamFrom_xorStreamFrom _ 0 l

theorem lorEqZero (a b : Nat) : a ||| b = 0 ↔ a = 0 ∧ b = 0 := by
  constructor
  · intro h
    constructor
    · refine Nat.eq_of_testBit_eq fun i => ?_
      have ht := congrArg (fun x => Nat.testBit x i) h
      simp [Nat.testBit_lor] at ht
      simp [ht.1]
    · refine Nat.eq_of_testBit_eq fun i => ?_
      have ht := congrArg (fun x => Nat.testBit x i) h
      simp [Nat.testBit_lor] at ht
      simp [ht.2]
  · rintro ⟨rfl, rfl⟩; rfl

theorem ctOrFold_eq_zero (l : List (Nat × Nat)) :
    ∀ v : Nat, ctOrFold v l = 0 ↔ v = 0 ∧ ∀ p ∈ l, p.1 = p.2 := by
  induction l with
  | nil => intro v; simp [ctOrFold]
  | cons p rest ih =>
    intro v
    rw [ctOrFold, ih, lorEqZero, Nat.xor_eq_zero]
    simp only [List.forall_mem_cons]
    tauto

theorem ctOrFoldSteps_eq (l : List (Nat × Nat)) :
    ∀ v : Nat, ctOrFoldSteps v l = (ctOrFold v l, l.length) := by
  induction l with
  | nil => intro v; rfl
  | cons p rest ih => intro v; simp [ctOrFoldSteps, ctOrFold, ih]

theorem zip_forall_eq (x : List Nat) :
    ∀ y : List Nat, x.length = y.length →
      ((∀ p ∈ x.zip y, p.1 = p.2) ↔ x = y) := by
  induction x with
  | nil =>
    intro y h
    cases y with
    | nil => simp
    | cons b ys => simp at h
  | cons a xs ih =>
    intro y h
    cases y with
    | nil => simp at h
    | cons b ys =>
      simp only [List.length_cons, Nat.add_right_cancel_iff] at h
      simp only [List.zip_cons_cons, List.forall_mem_cons, List.cons.injEq]
      rw [ih ys h]

/-- `subtle.ConstantTimeCompare` returns 1 exactly on equal byte sequences. -/
theorem constantTimeCompare_eq_one (x y : List Nat) :
    constantTimeCompare x y = 1 ↔ x = y := by
  unfold constantTimeCompare
  by_cases h : x.length = y.length
  · by_cases hz : ctOrFold 0 (x.zip y) = 0
    · have hxy : x = y := (zip_forall_eq x y h).mp ((ctOrFold_eq_zero _ 0).mp hz).2
      subst hxy
      simp [hz]
    · have hxy : x ≠ y := fun e =>
        hz ((ctOrFold_eq_zero _ 0).mpr ⟨rfl, (zip_forall_eq x y h).mpr e⟩)
      simp [h, hz, hxy]
  · have hne : x ≠ y := fun e => h (by rw [e])
    simp [h, hne]

/-! ## Certificate-loop lemmas -/

/-- Parsing the encoded certificate list (followed by any remainder) succeeds
and consumes exactly the encoding. -/
theorem unmarshalCerts_encode (certs : List (List Nat)) :
    ∀ rest : List Nat, (∀ c ∈ certs, c.length < 4294967296) →
      unmarshalCerts certs.length
        ((certs.map fun cert => u32 cert.length ++ cert).flatten ++ rest)
        = (certs, rest, true) := by
  induction certs with
  | nil =>
    intro rest h
    simp [unmarshalCerts]
  | cons c cs ih =>
    intro rest h
    have hc : c.length < 4294967296 := h c (List.mem_cons_self c cs)
    have hcs : ∀ x ∈ cs, x.length < 4294967296 := fun x hx =>
      h x (List.mem_cons_of_mem c hx)
    have hflat := ih rest hcs
    have hdata :
        (List.map (fun cert => u32 cert.length ++ cert) (c :: cs)).flatten ++ rest
          = (c.length / 16777216 % 256) :: (c.length / 65536 % 256) ::
            (c.length / 256 % 256) :: (c.length % 256) ::
            (c ++ ((List.map (fun cert => u32 cert.length ++ cert) cs).flatten ++ rest)) := by
      simp [u32, List.append_assoc]
    rw [List.length_cons, hdata]
    rw [unmarshalCerts]
    rw [if_neg (by simp)]
    simp only [List.getD_cons_zero, List.getD_cons_succ, List.drop_succ_cons,
      List.drop_zero]
    rw [r32_u32 c.length hc]
    rw [if_neg (by simp)]
    simp only [show (Int.ofNat c.length).toNat = c.length from rfl]
    rw [if_neg (by simp [List.length_append])]
    simp only [List.take_left, List.drop_left]
    rw [hflat]

/-- A successful run of the certificate loop on byte input consumes exactly
the canonical encoding of the certificates it returns. -/
theorem unmarshalCerts_canonical (n : Nat) :
    ∀ data certs leftover, allBytes data →
      unmarshalCerts n data = (certs, leftover, true) →
      data = (certs.map fun cert => u32 cert.length ++ cert).flatten ++ leftover
        ∧ certs.length = n
        ∧ (∀ c ∈ certs, c.length < 4294967296 ∧ allBytes c)
        ∧ allBytes leftover := by
  induction n with
  | zero =>
    intro data certs leftover hb h
    rw [unmarshalCerts] at h
    obtain ⟨h1, h2, _⟩ : ([] : List (List Nat)) = certs ∧ data = leftover ∧ True := by
      simpa [Prod.ext_iff] using h
    subst h1
    subst h2
    simpa using hb
  | succ n ih =>
    intro data certs leftover hb h
    rw [unmarshalCerts] at h
    by_cases h4 : data.length < 4
    · rw [if_pos h4] at h
      simp [Prod.ext_iff] at h
    · rw [if_neg h4] at h
      obtain ⟨a, b, c, d, rest, rfl⟩ := exists_len4 data (by omega)
      simp only [List.getD_cons_zero, List.getD_cons_succ, List.drop_succ_cons,
        List.drop_zero] at h
      rw [if_neg (by simp)] at h
      by_cases hlen : rest.length < (Int.ofNat (r32 a b c d)).toNat
      · rw [if_pos hlen] at h
        simp [Prod.ext_iff] at h
      · rw [if_neg hlen] at h
        rcases hr : unmarshalCerts n
          (rest.drop (Int.ofNat (r32 a b c d)).toNat) with ⟨cs1, lo1, ok1⟩
        rw [hr] at h
        obtain ⟨hcr, hlo, hok⟩ :
            rest.take (Int.ofNat (r32 a b c d)).toNat :: cs1 = certs ∧
              lo1 = leftover ∧ ok1 = true := by
          simpa [Prod.ext_iff] using h
        subst hcr
        subst hlo
        subst hok
        have hbcons := (allBytes_cons a _).mp hb
        have hbcons2 := (allBytes_cons b _).mp hbcons.2
        have hbcons3 := (allBytes_cons c _).mp hbcons2.2
        have hbcons4 := (allBytes_cons d _).mp hbcons3.2
        have hbrest : allBytes rest := hbcons4.2
        have ha' : a < 256 := hbcons.1
        have hb' : b < 256 := hbcons2.1
        have hc' : c < 256 := hbcons3.1
        have hd' : d < 256 := hbcons4.1
        have hbdrop : allBytes (rest.drop (Int.ofNat (r32 a b c d)).toNat) :=
          allBytes_drop _ _ hbrest
        obtain ⟨hdata, hlen2, hcerts, hlo2⟩ := ih _ cs1 lo1 hbdrop hr
        have htn : (Int.ofNat (r32 a b c d)).toNat = r32 a b c d := rfl
        rw [htn] at hlen hdata ⊢
        have htake : (rest.take (r32 a b c d)).length = r32 a b c d := by
          rw [List.length_take]
          omega
        refine ⟨?_, by simp [hlen2], ?_, hlo2⟩
        · simp only [List.map_cons, List.flatten_cons, htake]
          rw [u32_r32 a b c d ha' hb' hc' hd']
          have : rest = rest.take (r32 a b c d) ++ rest.drop (r32 a b c d) :=
            (List.take_append_drop _ rest).symm
          conv_lhs => rw [this]
          rw [hdata]
          simp [List.append_assoc]
        · intro x hx
          rcases List.mem_cons.mp hx with rfl | hx2
          · exact ⟨by rw [htake]; exact r32_lt a b c d,
              allBytes_take _ _ hbrest⟩
          · exact hcerts x hx2

/-! ## v1.2 codec lemmas -/

/-- Parsing a v1.2 encoding followed by any remainder decodes every serialized
field, leaves `usedOldKey` at the receiver's value, and succeeds exactly when
the remainder is empty. -/
theorem unmarshal_marshal_append (s s0 : sessionState) (rest : List Nat)
    (hv : s.vers < 65536) (hcs : s.cipherSuite < 65536)
    (hm : s.masterSecret.length < 65536) (hn : s.certificates.length < 65536)
    (hcert : ∀ c ∈ s.certificates, c.length < 4294967296) :
    sessionState.unmarshal s0 (s.marshal ++ rest) =
      ({ vers := s.vers, cipherSuite := s.cipherSuite,
         masterSecret := s.masterSecret, certificates := s.certificates,
         usedOldKey := s0.usedOldKey }, rest.length == 0) := by
  have hdata : s.marshal ++ rest =
      (s.vers / 256 % 256) :: (s.vers % 256) ::
      (s.cipherSuite / 256 % 256) :: (s.cipherSuite % 256) ::
      (s.masterSecret.length / 256 % 256) :: (s.masterSecret.length % 256) ::
      (s.masterSecret ++ ((s.certificates.length / 256 % 256) ::
        (s.certificates.length % 256) ::
        ((s.certificates.map fun cert => u32 cert.length ++ cert).flatten ++ rest))) := by
    simp [sessionState.marshal, u16, List.append_assoc]
  rw [hdata, sessionState.unmarshal]
  rw [if_neg (by simp only [List.length_cons, List.length_append]; omega)]
  simp only [List.getD_cons_zero, List.getD_cons_succ, List.drop_succ_cons,
    List.drop_zero]
  simp only [r16_u16 s.vers hv, r16_u16 s.cipherSuite hcs,
    r16_u16 s.masterSecret.length hm]
  rw [if_neg (by simp only [List.length_append, List.length_cons]; omega)]
  simp only [List.take_left, List.drop_left]
  rw [if_neg (by simp)]
  simp only [List.getD_cons_zero, List.getD_cons_succ, List.drop_succ_cons,
    List.drop_zero]
  simp only [r16_u16 s.certificates.length hn]
  rw [unmarshalCerts_encode s.certificates rest hcert]
  simp

/-- A successful v1.2 decode of a byte sequence recovers a state whose
re-encoding is exactly the input, and that state is within all field-width
limits. -/
theorem unmarshal_canonical (s0 : sessionState) :
    ∀ (data : List Nat) (s1 : sessionState), allBytes data →
      sessionState.unmarshal s0 data = (s1, true) →
      sessionState.marshal s1 = data ∧ wf12 s1 ∧ limits12 s1 ∧ bytes12 s1 := by
  intro data s1 hb h
  rw [sessionState.unmarshal] at h
  by_cases h8 : data.length < 8
  · rw [if_pos h8] at h
    simp [Prod.ext_iff] at h
  · rw [if_neg h8] at h
    obtain ⟨b0, b1, b2, b3, b4, b5, rest, rfl⟩ := exists_len6 data (by omega)
    have hby0 := (allBytes_cons b0 _).mp hb
    have hby1 := (allBytes_cons b1 _).mp hby0.2
    have hby2 := (allBytes_cons b2 _).mp hby1.2
    have hby3 := (allBytes_cons b3 _).mp hby2.2
    have hby4 := (allBytes_cons b4 _).mp hby3.2
    have hby5 := (allBytes_cons b5 _).mp hby4.2
    have hbrest : allBytes rest := hby5.2
    simp only [List.getD_cons_zero, List.getD_cons_succ, List.drop_succ_cons,
      List.drop_zero] at h
    by_cases hms : rest.length < r16 b4 b5
    · rw [if_pos hms] at h
      simp [Prod.ext_iff] at h
    · rw [if_neg hms] at h
      by_cases h2 : (rest.drop (r16 b4 b5)).length < 2
      · rw [if_pos h2] at h
        simp [Prod.ext_iff] at h
      · rw [if_neg h2] at h
        obtain ⟨c0, c1, rest2, hd2⟩ :=
          exists_len2 (rest.drop (r16 b4 b5)) (by omega)
        rw [hd2] at h
        simp only [List.getD_cons_zero, List.getD_cons_succ,
          List.drop_succ_cons, List.drop_zero] at h
        rcases hcl : unmarshalCerts (r16 c0 c1) rest2 with ⟨certs, lo, ok1⟩
        rw [hcl] at h
        have hcc : allBytes (c0 :: c1 :: rest2) := by
          rw [← hd2]; exact allBytes_drop _ _ hbrest
        have hc0 : c0 < 256 := ((allBytes_cons c0 _).mp hcc).1
        have hc1 : c1 < 256 := ((allBytes_cons c1 _).mp ((allBytes_cons c0 _).mp hcc).2).1
        have hbrest2 : allBytes rest2 :=
          ((allBytes_cons c1 _).mp ((allBytes_cons c0 _).mp hcc).2).2
        obtain ⟨hs1, hok1, hlo⟩ :
            ({ vers := r16 b0 b1, cipherSuite := r16 b2 b3,
               masterSecret := rest.take (r16 b4 b5), certificates := certs,
               usedOldKey := s0.usedOldKey } : sessionState) = s1 ∧
              ok1 = true ∧ lo.length = 0 := by
          simpa [Prod.ext_iff, Bool.and_eq_true] using h
        subst hs1
        subst hok1
        have hlonil : lo = [] := List.length_eq_zero.mp hlo
        subst hlonil
        obtain ⟨hdata2, hnc, hcerts, _⟩ :=
          unmarshalCerts_canonical (r16 c0 c1) rest2 certs [] hbrest2 hcl
        have htake : (rest.take (r16 b4 b5)).length = r16 b4 b5 := by
          rw [List.length_take]; omega
        rw [List.append_nil] at hdata2
        refine ⟨?_, ⟨r16_lt b0 b1, r16_lt b2 b3⟩,
          ⟨by rw [htake]; exact r16_lt b4 b5, by rw [hnc]; exact r16_lt c0 c1,
            fun c hcmem => (hcerts c hcmem).1⟩,
          ⟨allBytes_take _ _ hbrest, fun c hcmem => (hcerts c hcmem).2⟩⟩
        show u16 (r16 b0 b1) ++ u16 (r16 b2 b3) ++
            u16 (rest.take (r16 b4 b5)).length ++ rest.take (r16 b4 b5) ++
            u16 certs.length ++
            (certs.map fun cert => u32 cert.length ++ cert).flatten
          = b0 :: b1 :: b2 :: b3 :: b4 :: b5 :: rest
        rw [htake, hnc, u16_r16 b0 b1 hby0.1 hby1.1, u16_r16 b2 b3 hby2.1 hby3.1,
          u16_r16 b4 b5 hby4.1 hby5.1, u16_r16 c0 c1 hc0 hc1]
        have hrest : rest = rest.take (r16 b4 b5) ++ (c0 :: c1 :: rest2) := by
          conv_lhs => rw [← List.take_append_drop (r16 b4 b5) rest]
          rw [hd2]
        conv_rhs => rw [hrest, hdata2]
        simp [List.append_assoc]

/-! ## v1.3 codec lemmas -/

/-- Parsing a v1.3 encoding followed by any remainder: every field before the
final SNI check is decoded; the SNI field is decoded (and the parse succeeds)
exactly when the remainder is empty, since the final check demands that the
SNI field end the input. -/
theorem unmarshal13_marshal_append (s s0 : sessionState13) (rest : List Nat)
    (hv : s.vers < 65536) (hsu : s.suite < 65536) (hag : s.ageAdd < 4294967296)
    (hca : s.createdAt < 18446744073709551616)
    (hme : s.maxEarlyDataLen < 4294967296)
    (hrs : s.resumptionSecret.length < 65536)
    (hal : s.alpnProtocol.length < 65536) (hsn : s.SNI.length < 65536) :
    sessionState13.unmarshal s0 (s.marshal ++ rest) =
      ({ vers := s.vers, suite := s.suite, ageAdd := s.ageAdd,
         createdAt := s.createdAt, maxEarlyDataLen := s.maxEarlyDataLen,
         resumptionSecret := s.resumptionSecret,
         alpnProtocol := s.alpnProtocol,
         SNI := if rest.length = 0 then s.SNI else s0.SNI },
       rest.length == 0) := by
  have hdata : s.marshal ++ rest =
      (s.vers / 256 % 256) :: (s.vers % 256) ::
      (s.suite / 256 % 256) :: (s.suite % 256) ::
      (s.ageAdd / 16777216 % 256) :: (s.ageAdd / 65536 % 256) ::
      (s.ageAdd / 256 % 256) :: (s.ageAdd % 256) ::
      (s.createdAt / 72057594037927936 % 256) ::
      (s.createdAt / 281474976710656 % 256) ::
      (s.createdAt / 1099511627776 % 256) :: (s.createdAt / 4294967296 % 256) ::
      (s.createdAt / 16777216 % 256) :: (s.createdAt / 65536 % 256) ::
      (s.createdAt / 256 % 256) :: (s.createdAt % 256) ::
      (s.maxEarlyDataLen / 16777216 % 256) :: (s.maxEarlyDataLen / 65536 % 256) ::
      (s.maxEarlyDataLen / 256 % 256) :: (s.maxEarlyDataLen % 256) ::
      (s.resumptionSecret.length / 256 % 256) :: (s.resumptionSecret.length % 256) ::
      (s.resumptionSecret ++ ((s.alpnProtocol.length / 256 % 256) ::
        (s.alpnProtocol.length % 256) ::
        (s.alpnProtocol ++ ((s.SNI.length / 256 % 256) :: (s.SNI.length % 256) ::
          (s.SNI ++ rest))))) := by
    simp [sessionState13.marshal, u16, u32, u64, List.append_assoc]
  rw [hdata, sessionState13.unmarshal]
  rw [if_neg (by simp only [List.length_cons, List.length_append]; omega)]
  simp only [List.getD_cons_zero, List.getD_cons_succ]
  simp only [r16_u16 s.vers hv, r16_u16 s.suite hsu, r32_u32 s.ageAdd hag,
    r64_u64 s.createdAt hca, r32_u32 s.maxEarlyDataLen hme,
    r16_u16 s.resumptionSecret.length hrs]
  rw [if_neg (by simp only [List.length_cons, List.length_append]; omega)]
  rw [← List.drop_drop s.resumptionSecret.length 22 _]
  simp only [List.drop_succ_cons, List.drop_zero]
  simp only [List.take_left, List.drop_left]
  simp only [List.getD_cons_zero, List.getD_cons_succ]
  simp only [r16_u16 s.alpnProtocol.length hal]
  rw [if_neg (by simp only [List.length_cons, List.length_append]; omega)]
  rw [← List.drop_drop s.alpnProtocol.length 2 _]
  simp only [List.drop_succ_cons, List.drop_zero]
  simp only [List.take_left, List.drop_left]
  simp only [List.getD_cons_zero, List.getD_cons_succ]
  simp only [r16_u16 s.SNI.length hsn]
  by_cases hrest : rest.length = 0
  · have hrnil : rest = [] := List.length_eq_zero.mp hrest
    subst hrnil
    rw [if_neg (by simp only [ne_eq, List.length_cons, List.length_append,
      List.length_nil]; omega)]
    simp only [List.drop_succ_cons, List.drop_zero, List.take_left]
    simp
  · rw [if_pos (by simp only [ne_eq, List.length_cons, List.length_append]; omega)]
    simp only [List.length_eq_zero] at hrest ⊢
    simp [hrest]

set_option maxHeartbeats 2000000 in
theorem u64_r64 (a b c d e f g h : Nat) (ha : a < 256) (hb : b < 256)
    (hc : c < 256) (hd : d < 256) (he : e < 256) (hf : f < 256) (hg : g < 256)
    (hh : h < 256) : u64 (r64 a b c d e f g h) = [a, b, c, d, e, f, g, h] := by
  unfold u64 r64
  refine List.cons_eq_cons.mpr ⟨by omega, ?_⟩
  refine List.cons_eq_cons.mpr ⟨by omega, ?_⟩
  refine List.cons_eq_cons.mpr ⟨by omega, ?_⟩
  refine List.cons_eq_cons.mpr ⟨by omega, ?_⟩
  refine List.cons_eq_cons.mpr ⟨by omega, ?_⟩
  refine List.cons_eq_cons.mpr ⟨by omega, ?_⟩
  refine List.cons_eq_cons.mpr ⟨by omega, ?_⟩
  refine List.cons_eq_cons.mpr ⟨by omega, rfl⟩

/-- A successful v1.3 decode of a byte sequence recovers a state whose
re-encoding is exactly the input, and that state is within all field-width
limits. -/
theorem unmarshal13_canonical (s0 : sessionState13) :
    ∀ (data : List Nat) (s1 : sessionState13), allBytes data →
      sessionState13.unmarshal s0 data = (s1, true) →
      sessionState13.marshal s1 = data ∧ wf13 s1 ∧ limits13 s1 ∧ bytes13 s1 := by
  intro data s1 hb h
  rw [sessionState13.unmarshal] at h
  by_cases h24 : data.length < 24
  · rw [if_pos h24] at h
    simp [Prod.ext_iff] at h
  · rw [if_neg h24] at h
    obtain ⟨b0, b1, b2, b3, b4, b5, b6, b7, b8, b9, b10, b11, b12, b13, b14, b15, b16, b17, b18, b19, b20, b21, rest, rfl⟩ := exists_len22 data (by omega)
    have hB0 : b0 < 256 := hb b0 (by simp)
    have hB1 : b1 < 256 := hb b1 (by simp)
    have hB2 : b2 < 256 := hb b2 (by simp)
    have hB3 : b3 < 256 := hb b3 (by simp)
    have hB4 : b4 < 256 := hb b4 (by simp)
    have hB5 : b5 < 256 := hb b5 (by simp)
    have hB6 : b6 < 256 := hb b6 (by simp)
    have hB7 : b7 < 256 := hb b7 (by simp)
    have hB8 : b8 < 256 := hb b8 (by simp)
    have hB9 : b9 < 256 := hb b9 (by simp)
    have hB10 : b10 < 256 := hb b10 (by simp)
    have hB11 : b11 < 256 := hb b11 (by simp)
    have hB12 : b12 < 256 := hb b12 (by simp)
    have hB13 : b13 < 256 := hb b13 (by simp)
    have hB14 : b14 < 256 := hb b14 (by simp)
    have hB15 : b15 < 256 := hb b15 (by simp)
    have hB16 : b16 < 256 := hb b16 (by simp)
    have hB17 : b17 < 256 := hb b17 (by simp)
    have hB18 : b18 < 256 := hb b18 (by simp)
    have hB19 : b19 < 256 := hb b19 (by simp)
    have hB20 : b20 < 256 := hb b20 (by simp)
    have hB21 : b21 < 256 := hb b21 (by simp)
    have hrest : allBytes rest := fun x hx => hb x (by simp [hx])
    simp only [List.getD_cons_zero, List.getD_cons_succ, List.drop_succ_cons,
      List.drop_zero] at h
    by_cases hc1 : (b0 :: b1 :: b2 :: b3 :: b4 :: b5 :: b6 :: b7 :: b8 :: b9 :: b10 :: b11 :: b12 :: b13 :: b14 :: b15 :: b16 :: b17 :: b18 :: b19 :: b20 :: b21 :: rest : List Nat).length < 22 + r16 b20 b21 + 2
    · rw [if_pos hc1] at h
      simp [Prod.ext_iff] at h
    · rw [if_neg hc1] at h
      have hrlen : r16 b20 b21 + 2 ≤ rest.length := by
        simp only [List.length_cons] at hc1
        omega
      rw [← List.drop_drop (r16 b20 b21) 22 _] at h
      simp only [List.drop_succ_cons, List.drop_zero] at h
      obtain ⟨a0, a1, T2, hz⟩ :=
        exists_len2 (rest.drop (r16 b20 b21)) (by
          rw [List.length_drop]
          omega)
      rw [hz] at h
      simp only [List.getD_cons_zero, List.getD_cons_succ] at h
      have hdropbytes : allBytes (a0 :: a1 :: T2) := by
        rw [← hz]
        exact allBytes_drop _ _ hrest
      have hA0 : a0 < 256 := hdropbytes a0 (by simp)
      have hA1 : a1 < 256 := hdropbytes a1 (by simp)
      have hT2 : allBytes T2 := fun x hx => hdropbytes x (by simp [hx])
      have hT2len : rest.length - r16 b20 b21 = 2 + T2.length := by
        have hzl := congrArg List.length hz
        simp only [List.length_drop, List.length_cons] at hzl
        omega
      by_cases hc2 : (a0 :: a1 :: T2 : List Nat).length < 2 + r16 a0 a1 + 2
      · rw [if_pos hc2] at h
        simp [Prod.ext_iff] at h
      · rw [if_neg hc2] at h
        have halen : r16 a0 a1 + 2 ≤ T2.length := by
          simp only [List.length_cons] at hc2
          omega
        rw [← List.drop_drop (r16 a0 a1) 2 _] at h
        simp only [List.drop_succ_cons, List.drop_zero] at h
        obtain ⟨n0, n1, T3, hz2⟩ :=
          exists_len2 (T2.drop (r16 a0 a1)) (by
            rw [List.length_drop]
            omega)
        rw [hz2] at h
        simp only [List.getD_cons_zero, List.getD_cons_succ] at h
        have hdropbytes2 : allBytes (n0 :: n1 :: T3) := by
          rw [← hz2]
          exact allBytes_drop _ _ hT2
        have hN0 : n0 < 256 := hdropbytes2 n0 (by simp)
        have hN1 : n1 < 256 := hdropbytes2 n1 (by simp)
        have hT3 : allBytes T3 := fun x hx => hdropbytes2 x (by simp [hx])
        by_cases hc3 : (n0 :: n1 :: T3 : List Nat).length ≠ 2 + r16 n0 n1
        · rw [if_pos hc3] at h
          simp [Prod.ext_iff] at h
        · rw [if_neg hc3] at h
          push_neg at hc3
          have hT3eq : T3.length = r16 n0 n1 := by
            simp only [List.length_cons] at hc3
            omega
          simp only [List.drop_succ_cons, List.drop_zero] at h
          have hs1 :
              ({ vers := r16 b0 b1, suite := r16 b2 b3,
                 ageAdd := r32 b4 b5 b6 b7,
                 createdAt := r64 b8 b9 b10 b11 b12 b13 b14 b15,
                 maxEarlyDataLen := r32 b16 b17 b18 b19,
                 resumptionSecret := rest.take (r16 b20 b21),
                 alpnProtocol := T2.take (r16 a0 a1),
                 SNI := T3.take (r16 n0 n1) } : sessionState13) = s1 := by
            simpa [Prod.ext_iff] using h
          subst hs1
          have htk1 : (rest.take (r16 b20 b21)).length = r16 b20 b21 := by
            rw [List.length_take]
            omega
          have htk2 : (T2.take (r16 a0 a1)).length = r16 a0 a1 := by
            rw [List.length_take]
            omega
          have htk3 : T3.take (r16 n0 n1) = T3 := by
            rw [← hT3eq]
            exact List.take_length T3
          refine ⟨?_, ?_, ?_, ?_⟩
          · show u16 (r16 b0 b1) ++ u16 (r16 b2 b3) ++ u32 (r32 b4 b5 b6 b7) ++
                u64 (r64 b8 b9 b10 b11 b12 b13 b14 b15) ++
                u32 (r32 b16 b17 b18 b19) ++
                u16 (rest.take (r16 b20 b21)).length ++ rest.take (r16 b20 b21) ++
                u16 (T2.take (r16 a0 a1)).length ++ T2.take (r16 a0 a1) ++
                u16 (T3.take (r16 n0 n1)).length ++ T3.take (r16 n0 n1)
              = b0 :: b1 :: b2 :: b3 :: b4 :: b5 :: b6 :: b7 :: b8 :: b9 :: b10 :: b11 :: b12 :: b13 :: b14 :: b15 :: b16 :: b17 :: b18 :: b19 :: b20 :: b21 :: rest
            rw [htk1, htk2, htk3, hT3eq]
            rw [u16_r16 b0 b1 hB0 hB1, u16_r16 b2 b3 hB2 hB3,
              u32_r32 b4 b5 b6 b7 hB4 hB5 hB6 hB7,
              u64_r64 b8 b9 b10 b11 b12 b13 b14 b15 hB8 hB9 hB10 hB11 hB12 hB13 hB14 hB15,
              u32_r32 b16 b17 b18 b19 hB16 hB17 hB18 hB19,
              u16_r16 b20 b21 hB20 hB21, u16_r16 a0 a1 hA0 hA1,
              u16_r16 n0 n1 hN0 hN1]
            have hr1 : rest = rest.take (r16 b20 b21) ++ (a0 :: a1 :: T2) := by
              conv_lhs => rw [← List.take_append_drop (r16 b20 b21) rest]
              rw [hz]
            have hr2 : T2 = T2.take (r16 a0 a1) ++ (n0 :: n1 :: T3) := by
              conv_lhs => rw [← List.take_append_drop (r16 a0 a1) T2]
              rw [hz2]
            conv_rhs => rw [hr1, hr2]
            simp [List.append_assoc]
          · exact ⟨r16_lt b0 b1, r16_lt b2 b3, r32_lt b4 b5 b6 b7,
              r64_lt b8 b9 b10 b11 b12 b13 b14 b15, r32_lt b16 b17 b18 b19⟩
          · exact ⟨by rw [htk1]; exact r16_lt b20 b21,
              by rw [htk2]; exact r16_lt a0 a1,
              by rw [htk3, hT3eq]; exact r16_lt n0 n1⟩
          · exact ⟨allBytes_take _ _ hrest, allBytes_take _ _ hT2,
              by rw [htk3]; exact hT3⟩

/-! ## Equality-method lemmas -/

theorem zipAll_bytesEqual (a : List (List Nat)) :
    ∀ b : List (List Nat), a.length = b.length →
      (((a.zip b).all fun p => bytesEqual p.1 p.2) = true ↔ a = b) := by
  induction a with
  | nil =>
    intro b h
    cases b with
    | nil => simp
    | cons y ys => simp at h
  | cons x xs ih =>
    intro b h
    cases b with
    | nil => simp at h
    | cons y ys =>
      simp only [List.length_cons, Nat.add_right_cancel_iff] at h
      simp only [List.zip_cons_cons, List.all_cons, Bool.and_eq_true,
        List.cons.injEq]
      rw [ih ys h]
      unfold bytesEqual
      simp only [beq_iff_eq]

/-- The v1.2 `equal` method decides equality of the four serialized fields
(and ignores `usedOldKey`). -/
theorem sessionState_equal_iff (s s1 : sessionState) :
    sessionState.equal s (.v12 s1) = true ↔
      s.vers = s1.vers ∧ s.cipherSuite = s1.cipherSuite ∧
      s.masterSecret = s1.masterSecret ∧ s.certificates = s1.certificates := by
  show (if s.vers != s1.vers || s.cipherSuite != s1.cipherSuite ||
      !bytesEqual s.masterSecret s1.masterSecret then false
    else if s.certificates.length != s1.certificates.length then false
    else (s.certificates.zip s1.certificates).all fun p => bytesEqual p.1 p.2)
      = true ↔ _
  split_ifs with h1 h2
  · constructor
    · intro hfalse
      simp at hfalse
    · rintro ⟨hv, hc, hm, _⟩
      exact absurd h1 (by simp [hv, hc, hm, bytesEqual])
  · constructor
    · intro hfalse
      simp at hfalse
    · rintro ⟨hv, hc, hm, hcert⟩
      exact absurd h2 (by simp [hcert])
  · constructor
    · intro hcert
      have h1' : s.vers = s1.vers ∧ s.cipherSuite = s1.cipherSuite ∧
          s.masterSecret = s1.masterSecret := by
        by_contra hcon
        apply h1
        simp only [Bool.or_eq_true, bne_iff_ne, ne_eq, Bool.not_eq_true',
          bytesEqual, beq_eq_false_iff_ne]
        tauto
      have h2' : s.certificates.length = s1.certificates.length := by
        by_contra hcon
        apply h2
        simpa using hcon
      exact ⟨h1'.1, h1'.2.1, h1'.2.2,
        (zipAll_bytesEqual _ _ h2').mp hcert⟩
    · rintro ⟨hv, hc, hm, hcert⟩
      have h2' : s.certificates.length = s1.certificates.length := by
        rw [hcert]
      exact (zipAll_bytesEqual _ _ h2').mpr hcert

/-- The v1.3 `equal` method decides equality of all eight fields. -/
theorem sessionState13_equal_iff (s s1 : sessionState13) :
    sessionState13.equal s (.v13 s1) = true ↔
      s.vers = s1.vers ∧ s.suite = s1.suite ∧ s.ageAdd = s1.ageAdd ∧
      s.createdAt = s1.createdAt ∧ s.maxEarlyDataLen = s1.maxEarlyDataLen ∧
      s.resumptionSecret = s1.resumptionSecret ∧
      s.alpnProtocol = s1.alpnProtocol ∧ s.SNI = s1.SNI := by
  show (s.vers == s1.vers && s.suite == s1.suite && s.ageAdd == s1.ageAdd &&
      s.createdAt == s1.createdAt && s.maxEarlyDataLen == s1.maxEarlyDataLen &&
      bytesEqual s.resumptionSecret s1.resumptionSecret &&
      s.alpnProtocol == s1.alpnProtocol && s.SNI == s1.SNI) = true ↔ _
  unfold bytesEqual
  simp only [Bool.and_eq_true, beq_iff_eq]
  tauto

/-! ## Ticket sealing/opening lemmas -/

theorem constantTimeCompare_self (x : List Nat) : constantTimeCompare x x = 1 :=
  (constantTimeCompare_eq_one x x).mpr rfl

/-- Opening a well-formed ticket `keyName | IV | ciphertext | MAC` whose MAC is
genuine, with a key list where the key name first matches at index `i` and
finds the sealing key: the CTR stream is applied to the ciphertext and the
old-key flag is `i > 0`. -/
theorem decryptTicket_body (cp : CryptoPrims) (L : List ticketKey) (i : Nat)
    (K : ticketKey) (iv ct : List Nat)
    (hkn : K.keyName.length = ticketKeyNameLen) (hiv : iv.length = aesBlockSize)
    (hfind : findTicketKey L K.keyName = some (i, K))
    (haes : aesNewCipherOk K.aesKey = true) :
    decryptTicket cp false L
      (K.keyName ++ iv ++ ct ++ cp.macSum K.hmacKey (K.keyName ++ iv ++ ct))
      = (some (xorKeyStream cp K.aesKey iv ct), decide (i > 0)) := by
  have hmaclen := cp.macSum_length K.hmacKey (K.keyName ++ iv ++ ct)
  have hassoc : K.keyName ++ iv ++ ct ++ cp.macSum K.hmacKey (K.keyName ++ iv ++ ct)
      = K.keyName ++ (iv ++ (ct ++ cp.macSum K.hmacKey (K.keyName ++ iv ++ ct))) := by
    simp [List.append_assoc]
  have hassoc2 : K.keyName ++ iv ++ ct ++ cp.macSum K.hmacKey (K.keyName ++ iv ++ ct)
      = (K.keyName ++ iv) ++ (ct ++ cp.macSum K.hmacKey (K.keyName ++ iv ++ ct)) := by
    simp [List.append_assoc]
  have hTlen : (K.keyName ++ iv ++ ct ++
      cp.macSum K.hmacKey (K.keyName ++ iv ++ ct)).length
      = 64 + ct.length := by
    simp only [List.length_append, hkn, hiv, hmaclen, ticketKeyNameLen,
      aesBlockSize, sha256Size]
    omega
  have h1 : (K.keyName ++ iv ++ ct ++
      cp.macSum K.hmacKey (K.keyName ++ iv ++ ct)).take ticketKeyNameLen
      = K.keyName := by
    rw [hassoc, ← hkn]
    simp
  have h2 : ((K.keyName ++ iv ++ ct ++
      cp.macSum K.hmacKey (K.keyName ++ iv ++ ct)).drop ticketKeyNameLen).take
        aesBlockSize = iv := by
    rw [hassoc, ← hkn, List.drop_left, ← hiv]
    simp
  have hsub : (K.keyName ++ iv ++ ct ++
      cp.macSum K.hmacKey (K.keyName ++ iv ++ ct)).length - sha256Size
      = (K.keyName ++ iv ++ ct).length := by
    rw [hTlen]
    simp only [List.length_append, hkn, hiv, ticketKeyNameLen, aesBlockSize,
      sha256Size]
    omega
  have h3 : (K.keyName ++ iv ++ ct ++
      cp.macSum K.hmacKey (K.keyName ++ iv ++ ct)).drop
        ((K.keyName ++ iv ++ ct ++
          cp.macSum K.hmacKey (K.keyName ++ iv ++ ct)).length - sha256Size)
      = cp.macSum K.hmacKey (K.keyName ++ iv ++ ct) := by
    rw [hsub]
    exact List.drop_left _ _
  have h4 : (K.keyName ++ iv ++ ct ++
      cp.macSum K.hmacKey (K.keyName ++ iv ++ ct)).take
        ((K.keyName ++ iv ++ ct ++
          cp.macSum K.hmacKey (K.keyName ++ iv ++ ct)).length - sha256Size)
      = K.keyName ++ iv ++ ct := by
    rw [hsub]
    exact List.take_left _ _
  have hkniv : ticketKeyNameLen + aesBlockSize = (K.keyName ++ iv).length := by
    simp [List.length_append, hkn, hiv]
  have hct2 : (K.keyName ++ iv ++ ct ++
      cp.macSum K.hmacKey (K.keyName ++ iv ++ ct)).length - sha256Size -
      (ticketKeyNameLen + aesBlockSize) = ct.length := by
    rw [hTlen]
    simp only [ticketKeyNameLen, aesBlockSize, sha256Size]
    omega
  have h5 : ((K.keyName ++ iv ++ ct ++
      cp.macSum K.hmacKey (K.keyName ++ iv ++ ct)).drop
        (ticketKeyNameLen + aesBlockSize)).take
        ((K.keyName ++ iv ++ ct ++
          cp.macSum K.hmacKey (K.keyName ++ iv ++ ct)).length - sha256Size -
          (ticketKeyNameLen + aesBlockSize)) = ct := by
    rw [hct2, hassoc2, hkniv, List.drop_left, List.take_left]
  unfold decryptTicket
  rw [if_neg (by
    simp only [Bool.false_or, decide_eq_true_eq, hTlen, ticketKeyNameLen,
      aesBlockSize, sha256Size]
    omega)]
  rw [h1]
  simp only [hfind, h2, h3, h4, h5]
  rw [constantTimeCompare_self]
  simp [haes]

/-! ## Claim theorems -/

/-- Claim C1: codec round-trip — for every session state of either shape
whose variable-length fields are within the field-width limits of the data
model, `unmarshal` applied to the output of `marshal` returns success and
yields a state field-wise equal to the original (byte sequences and strings
compared by content; the v1.2 `usedOldKey` bookkeeping flag is not part of
the encoding and keeps the receiver's value, and the `equal` method holds). -/
theorem claim1_codec_roundtrip (s s0 : sessionState) (t t0 : sessionState13)
    (h12a : wf12 s) (h12b : limits12 s) (h13a : wf13 t) (h13b : limits13 t) :
    (sessionState.unmarshal s0 s.marshal
        = ({ vers := s.vers, cipherSuite := s.cipherSuite,
             masterSecret := s.masterSecret, certificates := s.certificates,
             usedOldKey := s0.usedOldKey }, true)
      ∧ (sessionState.unmarshal s0 s.marshal).1.equal (.v12 s) = true)
    ∧ (sessionState13.unmarshal t0 t.marshal
        = ({ vers := t.vers, suite := t.suite, ageAdd := t.ageAdd,
             createdAt := t.createdAt, maxEarlyDataLen := t.maxEarlyDataLen,
             resumptionSecret := t.resumptionSecret,
             alpnProtocol := t.alpnProtocol, SNI := t.SNI }, true)
      ∧ (sessionState13.unmarshal t0 t.marshal).1.equal (.v13 t) = true) := by
  obtain ⟨hv, hcs⟩ := h12a
  obtain ⟨hm, hn, hcert⟩ := h12b
  obtain ⟨h13v, h13su, h13ag, h13ca, h13me⟩ := h13a
  obtain ⟨h13rs, h13al, h13sn⟩ := h13b
  have h12 := unmarshal_marshal_append s s0 [] hv hcs hm hn hcert
  rw [List.append_nil] at h12
  have h13 := unmarshal13_marshal_append t t0 [] h13v h13su h13ag h13ca h13me
    h13rs h13al h13sn
  rw [List.append_nil] at h13
  simp only [List.length_nil, beq_self_eq_true, if_pos rfl] at h12 h13
  refine ⟨⟨h12, ?_⟩, ⟨h13, ?_⟩⟩
  · rw [h12, sessionState_equal_iff]
    exact ⟨rfl, rfl, rfl, rfl⟩
  · rw [h13, sessionState13_equal_iff]
    exact ⟨rfl, rfl, rfl, rfl, rfl, rfl, rfl, rfl⟩

theorem claim1_codec_roundtrip_witness :
    wf12 ⟨771, 4865, [1, 2], [[7]], false⟩
    ∧ limits12 ⟨771, 4865, [1, 2], [[7]], false⟩
    ∧ wf13 ⟨772, 4866, 5, 99, 3, [1, 2], [10], [11, 12]⟩
    ∧ limits13 ⟨772, 4866, 5, 99, 3, [1, 2], [10], [11, 12]⟩
    ∧ sessionState.unmarshal ⟨0, 0, [], [], true⟩
        (sessionState.marshal ⟨771, 4865, [1, 2], [[7]], false⟩)
      = (⟨771, 4865, [1, 2], [[7]], true⟩, true)
    ∧ sessionState13.unmarshal ⟨0, 0, 0, 0, 0, [], [], []⟩
        (sessionState13.marshal ⟨772, 4866, 5, 99, 3, [1, 2], [10], [11, 12]⟩)
      = (⟨772, 4866, 5, 99, 3, [1, 2], [10], [11, 12]⟩, true) :=
  ⟨by decide, by decide, by decide, by decide,
   (claim1_codec_roundtrip ⟨771, 4865, [1, 2], [[7]], false⟩ ⟨0, 0, [], [], true⟩
     ⟨772, 4866, 5, 99, 3, [1, 2], [10], [11, 12]⟩ ⟨0, 0, 0, 0, 0, [], [], []⟩
     (by decide) (by decide) (by decide) (by decide)).1.1,
   (claim1_codec_roundtrip ⟨771, 4865, [1, 2], [[7]], false⟩ ⟨0, 0, [], [], true⟩
     ⟨772, 4866, 5, 99, 3, [1, 2], [10], [11, 12]⟩ ⟨0, 0, 0, 0, 0, [], [], []⟩
     (by decide) (by decide) (by decide) (by decide)).2.1⟩

/-- Claim C9: accepted encodings are canonical — whenever `unmarshal` of
either shape accepts a byte sequence, re-encoding the decoded state with
`marshal` reproduces the input byte for byte; consequently `unmarshal` is
injective on accepted inputs (two accepted inputs decoding to the same state
are equal). -/
theorem claim9_accepted_encodings_canonical (s0 : sessionState)
    (t0 : sessionState13) (data data2 : List Nat)
    (hb : allBytes data) (hb2 : allBytes data2) :
    ((sessionState.unmarshal s0 data).2 = true →
      sessionState.marshal (sessionState.unmarshal s0 data).1 = data)
  ∧ ((sessionState13.unmarshal t0 data).2 = true →
      sessionState13.marshal (sessionState13.unmarshal t0 data).1 = data)
  ∧ ((sessionState.unmarshal s0 data).2 = true →
      (sessionState.unmarshal s0 data2).2 = true →
      (sessionState.unmarshal s0 data).1 = (sessionState.unmarshal s0 data2).1 →
      data = data2)
  ∧ ((sessionState13.unmarshal t0 data).2 = true →
      (sessionState13.unmarshal t0 data2).2 = true →
      (sessionState13.unmarshal t0 data).1 = (sessionState13.unmarshal t0 data2).1 →
      data = data2) := by
  have c12 : ∀ d : List Nat, allBytes d → (sessionState.unmarshal s0 d).2 = true →
      sessionState.marshal (sessionState.unmarshal s0 d).1 = d := by
    intro d hbd hs
    rcases hu : sessionState.unmarshal s0 d with ⟨s1, ok⟩
    rw [hu] at hs
    simp only at hs
    subst hs
    exact (unmarshal_canonical s0 d s1 hbd hu).1
  have c13 : ∀ d : List Nat, allBytes d → (sessionState13.unmarshal t0 d).2 = true →
      sessionState13.marshal (sessionState13.unmarshal t0 d).1 = d := by
    intro d hbd hs
    rcases hu : sessionState13.unmarshal t0 d with ⟨s1, ok⟩
    rw [hu] at hs
    simp only at hs
    subst hs
    exact (unmarshal13_canonical t0 d s1 hbd hu).1
  refine ⟨c12 data hb, c13 data hb, ?_, ?_⟩
  · intro h1 h2 heq
    rw [← c12 data hb h1, ← c12 data2 hb2 h2, heq]
  · intro h1 h2 heq
    rw [← c13 data hb h1, ← c13 data2 hb2 h2, heq]

theorem claim9_accepted_encodings_canonical_witness :
    allBytes [3, 3, 19, 1, 0, 0, 0, 0]
    ∧ (sessionState.unmarshal ⟨0, 0, [], [], false⟩ [3, 3, 19, 1, 0, 0, 0, 0]).2 = true
    ∧ sessionState.marshal
        (sessionState.unmarshal ⟨0, 0, [], [], false⟩ [3, 3, 19, 1, 0, 0, 0, 0]).1
      = [3, 3, 19, 1, 0, 0, 0, 0] :=
  ⟨by decide, by decide,
   (claim9_accepted_encodings_canonical ⟨0, 0, [], [], false⟩
     ⟨0, 0, 0, 0, 0, [], [], []⟩ [3, 3, 19, 1, 0, 0, 0, 0] []
     (by decide) (by decide)).1 (by decide)⟩

/-- Claim C10: decode failure is not atomic — on a valid v1.2 encoding
followed by one extra trailing byte, `sessionState.unmarshal` reports failure
even though it has already overwritten the receiver's `vers`, `cipherSuite`,
`masterSecret` and `certificates` fields with the values decoded from the
input (the input below is `marshal ⟨771, 4865, [1,2], [[7]], false⟩ ++ [0]`,
the receiver is `⟨1, 1, [9], [[8]], true⟩`, and the failing result carries the
decoded fields, not the receiver's). -/
theorem claim10_receiver_overwritten_on_failure :
    sessionState.unmarshal ⟨1, 1, [9], [[8]], true⟩
        [3, 3, 19, 1, 0, 2, 1, 2, 0, 1, 0, 0, 0, 1, 7, 0]
      = (⟨771, 4865, [1, 2], [[7]], true⟩, false)
    ∧ ([3, 3, 19, 1, 0, 2, 1, 2, 0, 1, 0, 0, 0, 1, 7, 0] : List Nat)
        = sessionState.marshal ⟨771, 4865, [1, 2], [[7]], false⟩ ++ [0]
    ∧ (⟨771, 4865, [1, 2], [[7]], true⟩ : sessionState) ≠ ⟨1, 1, [9], [[8]], true⟩ := by
  decide

/-- Claim C2: seal/open round-trip with old-key reporting — sealing a payload
with the key at index 0 of the encryption key list (given a random source
supplying a full IV and valid AES key material) and opening the resulting
ticket against a key list in which that key's name first matches at index `i`
(finding the same key) returns exactly the payload with
`usedOldKey = (i > 0)`; tickets are not disabled on the opening side. -/
theorem claim2_seal_open_roundtrip (cp : CryptoPrims) (K : ticketKey)
    (tailE L : List ticketKey) (i : Nat) (randBytes P : List Nat)
    (hkn : K.keyName.length = ticketKeyNameLen)
    (hrand : aesBlockSize ≤ randBytes.length)
    (haes : aesNewCipherOk K.aesKey = true)
    (hfind : findTicketKey L K.keyName = some (i, K)) :
    ∃ T, encryptTicket cp (K :: tailE) randBytes P = some T ∧
      decryptTicket cp false L T = (some P, decide (i > 0)) := by
  have hivlen : (randBytes.take aesBlockSize).length = aesBlockSize := by
    rw [List.length_take]
    omega
  refine ⟨K.keyName ++ randBytes.take aesBlockSize ++
      xorKeyStream cp K.aesKey (randBytes.take aesBlockSize) P ++
      cp.macSum K.hmacKey (K.keyName ++ randBytes.take aesBlockSize ++
        xorKeyStream cp K.aesKey (randBytes.take aesBlockSize) P), ?_, ?_⟩
  · unfold encryptTicket
    rw [if_neg (by omega)]
    simp [haes]
  · rw [decryptTicket_body cp L i K (randBytes.take aesBlockSize)
      (xorKeyStream cp K.aesKey (randBytes.take aesBlockSize) P)
      hkn hivlen hfind haes]
    rw [xorKeyStream_xorKeyStream]

theorem claim2_seal_open_roundtrip_witness :
    tkA.keyName.length = ticketKeyNameLen
    ∧ aesBlockSize ≤ (List.replicate 16 3 : List Nat).length
    ∧ aesNewCipherOk tkA.aesKey = true
    ∧ findTicketKey [tkA] tkA.keyName = some (0, tkA)
    ∧ ∃ T, encryptTicket constCrypto [tkA] (List.replicate 16 3) [5, 6] = some T ∧
        decryptTicket constCrypto false [tkA] T = (some [5, 6], decide (0 > 0)) :=
  ⟨by decide, by decide, by decide, by decide,
   claim2_seal_open_roundtrip constCrypto tkA [] [tkA] 0 (List.replicate 16 3)
     [5, 6] (by decide) (by decide) (by decide) (by decide)⟩

/-- Claim C3: uniform failure signalling of ticket opening — every rejection
path of `decryptTicket` returns the identical result `(none, false)`: whenever
the payload is absent the whole result is `(none, false)`, and in particular
the disabled flag, a short ticket, or an unmatched key name each force that
exact result (so a disabled configuration rejects every ticket, including
authentic ones). -/
theorem claim3_uniform_failure (cp : CryptoPrims) (disabled : Bool)
    (keys : List ticketKey) (ticket : List Nat) :
    ((decryptTicket cp disabled keys ticket).1 = none →
      decryptTicket cp disabled keys ticket = (none, false))
  ∧ (disabled = true → decryptTicket cp disabled keys ticket = (none, false))
  ∧ (ticket.length < ticketKeyNameLen + aesBlockSize + sha256Size →
      decryptTicket cp disabled keys ticket = (none, false))
  ∧ (findTicketKey keys (ticket.take ticketKeyNameLen) = none →
      decryptTicket cp disabled keys ticket = (none, false)) := by
  refine ⟨?_, ?_, ?_, ?_⟩
  · unfold decryptTicket
    split
    · exact fun _ => rfl
    · rcases hk : findTicketKey keys (List.take ticketKeyNameLen ticket) with _ | ik
      · simp [hk]
      · simp only [hk]
        split
        · exact fun _ => rfl
        · split
          · exact fun _ => rfl
          · intro hnone
            simp at hnone
  · intro h
    subst h
    simp [decryptTicket]
  · intro h
    unfold decryptTicket
    rw [if_pos (by simp [h])]
  · intro h
    unfold decryptTicket
    split
    · rfl
    · simp [h]

theorem claim3_uniform_failure_witness :
    (true = true
      → decryptTicket constCrypto true [tkA] (List.replicate 64 0) = (none, false))
    ∧ decryptTicket constCrypto true [tkA] (List.replicate 64 0) = (none, false) :=
  ⟨(claim3_uniform_failure constCrypto true [tkA] (List.replicate 64 0)).2.1,
   (claim3_uniform_failure constCrypto true [tkA] (List.replicate 64 0)).2.1 rfl⟩

/-- The instrumented comparison agrees with `constantTimeCompare` and its
step count is a function of the input lengths alone. -/
theorem constantTimeCompareCounted_eq (a b : List Nat) :
    constantTimeCompareCounted a b
      = (constantTimeCompare a b, if a.length = b.length then a.length else 0) := by
  unfold constantTimeCompareCounted constantTimeCompare
  by_cases h : a.length = b.length
  · simp [h, ctOrFoldSteps_eq, List.length_zip]
  · simp [h]

/-- Claim C4: constant-time MAC verification — the comparison primitive used
by `decryptTicket` for the MAC check (`subtle.ConstantTimeCompare`, embedded
as `constantTimeCompare`) decides equality, and the number of byte operations
its loop performs depends only on the lengths of the two inputs, never on the
position of the first differing byte: structurally it is a constant-time
equality check, not an early-exit comparison. -/
theorem claim4_constant_time_mac_compare (x y x2 y2 : List Nat) :
    (constantTimeCompare x y = 1 ↔ x = y)
  ∧ (constantTimeCompareCounted x y).1 = constantTimeCompare x y
  ∧ (constantTimeCompareCounted x y).2
      = (if x.length = y.length then x.length else 0)
  ∧ (x.length = x2.length → y.length = y2.length →
      (constantTimeCompareCounted x y).2 = (constantTimeCompareCounted x2 y2).2) := by
  refine ⟨constantTimeCompare_eq_one x y, ?_, ?_, ?_⟩
  · rw [constantTimeCompareCounted_eq]
  · rw [constantTimeCompareCounted_eq]
  · intro hx hy
    rw [constantTimeCompareCounted_eq, constantTimeCompareCounted_eq, hx, hy]

theorem claim4_constant_time_mac_compare_witness :
    ([1, 2] : List Nat).length = ([5, 6] : List Nat).length
    ∧ ([3, 9] : List Nat).length = ([0, 0] : List Nat).length
    ∧ (constantTimeCompareCounted [1, 2] [3, 9]).2
        = (constantTimeCompareCounted [5, 6] [0, 0]).2 :=
  ⟨by decide, by decide,
   (claim4_constant_time_mac_compare [1, 2] [3, 9] [5, 6] [0, 0]).2.2.2
     (by decide) (by decide)⟩

/-- Claim C5: decode safety — `unmarshal` of either shape is a total function
of the input (the embedding consumes its input only through bounds-safe
`take`/`drop`/`getD`, so it can neither panic nor read past the end), and it
returns failure whenever a declared length prefix exceeds the remaining
input: the v1.2 masterSecret prefix, the 4-byte certificate-length prefix at
every iteration of the certificate loop (whose value, read on a 64-bit
platform, is never negative — conjunct three), and the v1.3
resumptionSecret, ALPN and SNI prefixes. -/
theorem claim5_decode_rejects_oversized (s0 : sessionState)
    (t0 : sessionState13) (data : List Nat) (n : Nat) :
    (8 ≤ data.length →
      (data.drop 6).length < r16 (data.getD 4 0) (data.getD 5 0) →
      (sessionState.unmarshal s0 data).2 = false)
  ∧ (4 ≤ data.length →
      (data.drop 4).length <
        r32 (data.getD 0 0) (data.getD 1 0) (data.getD 2 0) (data.getD 3 0) →
      (unmarshalCerts (n + 1) data).2.2 = false)
  ∧ 0 ≤ Int.ofNat
      (r32 (data.getD 0 0) (data.getD 1 0) (data.getD 2 0) (data.getD 3 0))
  ∧ (24 ≤ data.length →
      data.length < 22 + r16 (data.getD 20 0) (data.getD 21 0) + 2 →
      (sessionState13.unmarshal t0 data).2 = false)
  ∧ (24 ≤ data.length →
      ¬ data.length < 22 + r16 (data.getD 20 0) (data.getD 21 0) + 2 →
      (data.drop (22 + r16 (data.getD 20 0) (data.getD 21 0))).length <
        2 + r16 ((data.drop (22 + r16 (data.getD 20 0) (data.getD 21 0))).getD 0 0)
          ((data.drop (22 + r16 (data.getD 20 0) (data.getD 21 0))).getD 1 0) + 2 →
      (sessionState13.unmarshal t0 data).2 = false)
  ∧ (24 ≤ data.length →
      ¬ data.length < 22 + r16 (data.getD 20 0) (data.getD 21 0) + 2 →
      ¬ (data.drop (22 + r16 (data.getD 20 0) (data.getD 21 0))).length <
        2 + r16 ((data.drop (22 + r16 (data.getD 20 0) (data.getD 21 0))).getD 0 0)
          ((data.drop (22 + r16 (data.getD 20 0) (data.getD 21 0))).getD 1 0) + 2 →
      ((data.drop (22 + r16 (data.getD 20 0) (data.getD 21 0))).drop
          (2 + r16 ((data.drop (22 + r16 (data.getD 20 0) (data.getD 21 0))).getD 0 0)
            ((data.drop (22 + r16 (data.getD 20 0) (data.getD 21 0))).getD 1 0))).length <
        2 + r16 (((data.drop (22 + r16 (data.getD 20 0) (data.getD 21 0))).drop
            (2 + r16 ((data.drop (22 + r16 (data.getD 20 0) (data.getD 21 0))).getD 0 0)
              ((data.drop (22 + r16 (data.getD 20 0) (data.getD 21 0))).getD 1 0))).getD 0 0)
          (((data.drop (22 + r16 (data.getD 20 0) (data.getD 21 0))).drop
            (2 + r16 ((data.drop (22 + r16 (data.getD 20 0) (data.getD 21 0))).getD 0 0)
              ((data.drop (22 + r16 (data.getD 20 0) (data.getD 21 0))).getD 1 0))).getD 1 0) →
      (sessionState13.unmarshal t0 data).2 = false) := by
  refine ⟨?_, ?_, by simp, ?_, ?_, ?_⟩
  · intro h8 hover
    rw [sessionState.unmarshal, if_neg (by omega), if_pos hover]
  · intro h4 hover
    rw [unmarshalCerts, if_neg (by omega), if_neg (by simp),
      if_pos (show (data.drop 4).length <
        (Int.ofNat (r32 (data.getD 0 0) (data.getD 1 0) (data.getD 2 0)
          (data.getD 3 0))).toNat from hover)]
  · intro h24 hover
    rw [sessionState13.unmarshal, if_neg (by omega), if_pos hover]
  · intro h24 hc1 hover
    rw [sessionState13.unmarshal, if_neg (by omega), if_neg hc1, if_pos hover]
  · intro h24 hc1 hc2 hover
    rw [sessionState13.unmarshal, if_neg (by omega), if_neg hc1, if_neg hc2,
      if_pos (by omega)]

theorem claim5_decode_rejects_oversized_witness :
    8 ≤ ([0, 0, 0, 0, 255, 255, 0, 0] : List Nat).length
    ∧ (([0, 0, 0, 0, 255, 255, 0, 0] : List Nat).drop 6).length <
        r16 (([0, 0, 0, 0, 255, 255, 0, 0] : List Nat).getD 4 0)
          (([0, 0, 0, 0, 255, 255, 0, 0] : List Nat).getD 5 0)
    ∧ (sessionState.unmarshal ⟨0, 0, [], [], false⟩
        [0, 0, 0, 0, 255, 255, 0, 0]).2 = false :=
  ⟨by decide, by decide,
   (claim5_decode_rejects_oversized ⟨0, 0, [], [], false⟩
     ⟨0, 0, 0, 0, 0, [], [], []⟩ [0, 0, 0, 0, 255, 255, 0, 0] 0).1
     (by decide) (by decide)⟩

/-- Claim C6: decode rejects truncation and extension — for a valid encoding
produced by `marshal` of either shape (from a state within the field-width
limits, with byte-valued contents), every proper truncation `take k` is
rejected by `unmarshal`, and appending any non-empty suffix is rejected by
the trailing-bytes check. -/
theorem claim6_truncation_extension (s s0 : sessionState)
    (t t0 : sessionState13) (k j : Nat) (extra : List Nat)
    (hw : wf12 s) (hl : limits12 s) (hbs : bytes12 s)
    (hw13 : wf13 t) (hl13 : limits13 t) (hbs13 : bytes13 t) :
    (k < s.marshal.length →
      (sessionState.unmarshal s0 (s.marshal.take k)).2 = false)
  ∧ (extra ≠ [] →
      (sessionState.unmarshal s0 (s.marshal ++ extra)).2 = false)
  ∧ (j < t.marshal.length →
      (sessionState13.unmarshal t0 (t.marshal.take j)).2 = false)
  ∧ (extra ≠ [] →
      (sessionState13.unmarshal t0 (t.marshal ++ extra)).2 = false) := by
  obtain ⟨hv, hcs⟩ := hw
  obtain ⟨hm, hn, hcert⟩ := hl
  obtain ⟨h13v, h13su, h13ag, h13ca, h13me⟩ := hw13
  obtain ⟨h13rs, h13al, h13sn⟩ := hl13
  refine ⟨?_, ?_, ?_, ?_⟩
  · intro hk
    by_contra hflag
    rcases hu : sessionState.unmarshal s0 (s.marshal.take k) with ⟨s1, ok⟩
    rw [hu] at hflag
    have hok : ok = true := by
      cases ok
      · exact absurd rfl hflag
      · rfl
    subst hok
    have hbytes : allBytes (s.marshal.take k) :=
      allBytes_take _ _ (allBytes_marshal s hbs)
    obtain ⟨hcanon, hwf1, hlim1, _⟩ := unmarshal_canonical s0 _ s1 hbytes hu
    obtain ⟨hv1, hcs1⟩ := hwf1
    obtain ⟨hm1, hn1, hcert1⟩ := hlim1
    have happ := unmarshal_marshal_append s1 s0 (s.marshal.drop k)
      hv1 hcs1 hm1 hn1 hcert1
    rw [hcanon, List.take_append_drop] at happ
    have horig := unmarshal_marshal_append s s0 [] hv hcs hm hn hcert
    rw [List.append_nil] at horig
    have hfl := congrArg Prod.snd (horig.symm.trans happ)
    simp only [List.length_drop, List.length_nil] at hfl
    have := of_decide_eq_true (by simpa using hfl.symm)
    omega
  · intro hne
    rw [unmarshal_marshal_append s s0 extra hv hcs hm hn hcert]
    simp [List.length_eq_zero, hne]
  · intro hj
    by_contra hflag
    rcases hu : sessionState13.unmarshal t0 (t.marshal.take j) with ⟨t1, ok⟩
    rw [hu] at hflag
    have hok : ok = true := by
      cases ok
      · exact absurd rfl hflag
      · rfl
    subst hok
    have hbytes : allBytes (t.marshal.take j) :=
      allBytes_take _ _ (allBytes_marshal13 t hbs13)
    obtain ⟨hcanon, hwf1, hlim1, _⟩ := unmarshal13_canonical t0 _ t1 hbytes hu
    obtain ⟨hv1, hsu1, hag1, hca1, hme1⟩ := hwf1
    obtain ⟨hrs1, hal1, hsn1⟩ := hlim1
    have happ := unmarshal13_marshal_append t1 t0 (t.marshal.drop j)
      hv1 hsu1 hag1 hca1 hme1 hrs1 hal1 hsn1
    rw [hcanon, List.take_append_drop] at happ
    have horig := unmarshal13_marshal_append t t0 [] h13v h13su h13ag h13ca
      h13me h13rs h13al h13sn
    rw [List.append_nil] at horig
    have hfl := congrArg Prod.snd (horig.symm.trans happ)
    simp only [List.length_drop, List.length_nil] at hfl
    have := of_decide_eq_true (by simpa using hfl.symm)
    omega
  · intro hne
    rw [unmarshal13_marshal_append t t0 extra h13v h13su h13ag h13ca h13me
      h13rs h13al h13sn]
    simp [List.length_eq_zero, hne]

theorem claim6_truncation_extension_witness :
    wf12 ⟨771, 4865, [1, 2], [[7]], false⟩
    ∧ limits12 ⟨771, 4865, [1, 2], [[7]], false⟩
    ∧ bytes12 ⟨771, 4865, [1, 2], [[7]], false⟩
    ∧ wf13 ⟨772, 4866, 5, 99, 3, [1, 2], [10], [11, 12]⟩
    ∧ limits13 ⟨772, 4866, 5, 99, 3, [1, 2], [10], [11, 12]⟩
    ∧ bytes13 ⟨772, 4866, 5, 99, 3, [1, 2], [10], [11, 12]⟩
    ∧ 3 < (sessionState.marshal ⟨771, 4865, [1, 2], [[7]], false⟩).length
    ∧ ([9] : List Nat) ≠ []
    ∧ (sessionState.unmarshal ⟨0, 0, [], [], false⟩
        ((sessionState.marshal ⟨771, 4865, [1, 2], [[7]], false⟩).take 3)).2 = false
    ∧ (sessionState.unmarshal ⟨0, 0, [], [], false⟩
        (sessionState.marshal ⟨771, 4865, [1, 2], [[7]], false⟩ ++ [9])).2 = false
    ∧ (sessionState13.unmarshal ⟨0, 0, 0, 0, 0, [], [], []⟩
        ((sessionState13.marshal ⟨772, 4866, 5, 99, 3, [1, 2], [10], [11, 12]⟩).take 3)).2
        = false
    ∧ (sessionState13.unmarshal ⟨0, 0, 0, 0, 0, [], [], []⟩
        (sessionState13.marshal ⟨772, 4866, 5, 99, 3, [1, 2], [10], [11, 12]⟩ ++ [9])).2
        = false :=
  ⟨by decide, by decide, by decide, by decide, by decide, by decide,
   by decide, by decide,
   (claim6_truncation_extension ⟨771, 4865, [1, 2], [[7]], false⟩
     ⟨0, 0, [], [], false⟩ ⟨772, 4866, 5, 99, 3, [1, 2], [10], [11, 12]⟩
     ⟨0, 0, 0, 0, 0, [], [], []⟩ 3 3 [9] (by decide) (by decide) (by decide)
     (by decide) (by decide) (by decide)).1 (by decide),
   (claim6_truncation_extension ⟨771, 4865, [1, 2], [[7]], false⟩
     ⟨0, 0, [], [], false⟩ ⟨772, 4866, 5, 99, 3, [1, 2], [10], [11, 12]⟩
     ⟨0, 0, 0, 0, 0, [], [], []⟩ 3 3 [9] (by decide) (by decide) (by decide)
     (by decide) (by decide) (by decide)).2.1 (by decide),
   (claim6_truncation_extension ⟨771, 4865, [1, 2], [[7]], false⟩
     ⟨0, 0, [], [], false⟩ ⟨772, 4866, 5, 99, 3, [1, 2], [10], [11, 12]⟩
     ⟨0, 0, 0, 0, 0, [], [], []⟩ 3 3 [9] (by decide) (by decide) (by decide)
     (by decide) (by decide) (by decide)).2.2.1 (by decide),
   (claim6_truncation_extension ⟨771, 4865, [1, 2], [[7]], false⟩
     ⟨0, 0, [], [], false⟩ ⟨772, 4866, 5, 99, 3, [1, 2], [10], [11, 12]⟩
     ⟨0, 0, 0, 0, 0, [], [], []⟩ 3 3 [9] (by decide) (by decide) (by decide)
     (by decide) (by decide) (by decide)).2.2.2 (by decide)⟩

/-- Length of the encoded certificate section. -/
theorem flattenCerts_length (l : List (List Nat)) :
    ((l.map fun c => u32 c.length ++ c).flatten).length
      = (l.map fun c => 4 + c.length).sum := by
  induction l with
  | nil => rfl
  | cons c cs ih =>
    simp only [List.map_cons, List.flatten_cons, List.length_append,
      List.sum_cons]
    rw [ih]
    simp only [u32, List.length_cons, List.length_nil]

/-- Claim C7 counterexample: `marshal` does not fail on a state whose
`masterSecret` exceeds the 16-bit prefix; it emits a full encoding (here
65544 bytes for a 65536-byte secret) whose two length-prefix bytes read 0,
i.e. the prefix is the length reduced mod 2^16, not the real length. -/
theorem claim7_marshal_overflow_counterexample :
    (⟨0, 0, List.replicate 65536 0, [], false⟩ : sessionState).masterSecret.length
      = 65536
    ∧ (sessionState.marshal ⟨0, 0, List.replicate 65536 0, [], false⟩).length = 65544
    ∧ (sessionState.marshal ⟨0, 0, List.replicate 65536 0, [], false⟩).getD 4 0 = 0
    ∧ (sessionState.marshal ⟨0, 0, List.replicate 65536 0, [], false⟩).getD 5 0 = 0 := by
  have hA : sessionState.marshal ⟨0, 0, List.replicate 65536 0, [], false⟩
      = u16 0 ++ u16 0 ++ u16 (List.replicate 65536 (0 : Nat)).length ++
        List.replicate 65536 0 ++ u16 0 ++ [] := rfl
  have hu : u16 65536 = [0, 0] := by
    unfold u16
    norm_num
  refine ⟨by rw [List.length_replicate], ?_, ?_, ?_⟩
  · rw [hA]
    rw [List.length_append, List.length_append, List.length_append,
      List.length_append, List.length_append, List.length_replicate]
    norm_num [u16]
  · rw [hA, List.length_replicate, hu]
    rfl
  · rw [hA, List.length_replicate, hu]
    rfl

/-- Claim C7 amended: `marshal` of either shape never fails; it always emits
an encoding of the full deterministic length, writing every length prefix
reduced modulo its field width — the v1.2 masterSecret and certificate-count
prefixes and the v1.3 resumptionSecret, alpnProtocol and SNI prefixes hold
the length mod 2^16, and the 4-byte prefix in front of every certificate
holds that certificate's length mod 2^32 — deterministic truncation of the
prefix rather than failure. -/
theorem claim7_amended_deterministic_truncation (s : sessionState)
    (t : sessionState13) :
    r16 (s.marshal.getD 4 0) (s.marshal.getD 5 0) = s.masterSecret.length % 65536
  ∧ s.marshal.length
      = 8 + s.masterSecret.length + (s.certificates.map fun c => 4 + c.length).sum
  ∧ r16 ((s.marshal.drop (6 + s.masterSecret.length)).getD 0 0)
      ((s.marshal.drop (6 + s.masterSecret.length)).getD 1 0)
      = s.certificates.length % 65536
  ∧ (∀ (pre : List (List Nat)) (c : List Nat) (post : List (List Nat)),
      s.certificates = pre ++ c :: post →
      r32 ((s.marshal.drop (8 + s.masterSecret.length +
              (pre.map fun x => 4 + x.length).sum)).getD 0 0)
        ((s.marshal.drop (8 + s.masterSecret.length +
              (pre.map fun x => 4 + x.length).sum)).getD 1 0)
        ((s.marshal.drop (8 + s.masterSecret.length +
              (pre.map fun x => 4 + x.length).sum)).getD 2 0)
        ((s.marshal.drop (8 + s.masterSecret.length +
              (pre.map fun x => 4 + x.length).sum)).getD 3 0)
        = c.length % 4294967296)
  ∧ r16 (t.marshal.getD 20 0) (t.marshal.getD 21 0)
      = t.resumptionSecret.length % 65536
  ∧ r16 ((t.marshal.drop (22 + t.resumptionSecret.length)).getD 0 0)
      ((t.marshal.drop (22 + t.resumptionSecret.length)).getD 1 0)
      = t.alpnProtocol.length % 65536
  ∧ r16 ((t.marshal.drop (24 + t.resumptionSecret.length +
        t.alpnProtocol.length)).getD 0 0)
      ((t.marshal.drop (24 + t.resumptionSecret.length +
        t.alpnProtocol.length)).getD 1 0)
      = t.SNI.length % 65536
  ∧ t.marshal.length
      = 26 + t.resumptionSecret.length + t.alpnProtocol.length + t.SNI.length := by
  have hform : s.marshal =
      (s.vers / 256 % 256) :: (s.vers % 256) ::
      (s.cipherSuite / 256 % 256) :: (s.cipherSuite % 256) ::
      (s.masterSecret.length / 256 % 256) :: (s.masterSecret.length % 256) ::
      (s.masterSecret ++ ((s.certificates.length / 256 % 256) ::
        (s.certificates.length % 256) ::
        (s.certificates.map fun cert => u32 cert.length ++ cert).flatten)) := by
    simp [sessionState.marshal, u16, List.append_assoc]
  have hform13 : t.marshal =
      (t.vers / 256 % 256) :: (t.vers % 256) ::
      (t.suite / 256 % 256) :: (t.suite % 256) ::
      (t.ageAdd / 16777216 % 256) :: (t.ageAdd / 65536 % 256) ::
      (t.ageAdd / 256 % 256) :: (t.ageAdd % 256) ::
      (t.createdAt / 72057594037927936 % 256) ::
      (t.createdAt / 281474976710656 % 256) ::
      (t.createdAt / 1099511627776 % 256) :: (t.createdAt / 4294967296 % 256) ::
      (t.createdAt / 16777216 % 256) :: (t.createdAt / 65536 % 256) ::
      (t.createdAt / 256 % 256) :: (t.createdAt % 256) ::
      (t.maxEarlyDataLen / 16777216 % 256) :: (t.maxEarlyDataLen / 65536 % 256) ::
      (t.maxEarlyDataLen / 256 % 256) :: (t.maxEarlyDataLen % 256) ::
      (t.resumptionSecret.length / 256 % 256) :: (t.resumptionSecret.length % 256) ::
      (t.resumptionSecret ++ ((t.alpnProtocol.length / 256 % 256) ::
        (t.alpnProtocol.length % 256) ::
        (t.alpnProtocol ++ ((t.SNI.length / 256 % 256) :: (t.SNI.length % 256) ::
          t.SNI)))) := by
    simp [sessionState13.marshal, u16, u32, u64, List.append_assoc]
  refine ⟨?_, ?_, ?_, ?_, ?_, ?_, ?_, ?_⟩
  · rw [hform]
    simp only [List.getD_cons_zero, List.getD_cons_succ]
    unfold r16
    omega
  · rw [hform]
    simp only [List.length_cons, List.length_append, flattenCerts_length]
    omega
  · rw [hform, ← List.drop_drop s.masterSecret.length 6 _]
    simp only [List.drop_succ_cons, List.drop_zero, List.drop_left]
    simp only [List.getD_cons_zero, List.getD_cons_succ]
    unfold r16
    omega
  · intro pre c post hcerts
    rw [show 8 + s.masterSecret.length + (pre.map fun x => 4 + x.length).sum
        = 6 + s.masterSecret.length + 2 + (pre.map fun x => 4 + x.length).sum
        from by omega]
    rw [← List.drop_drop ((pre.map fun x => 4 + x.length).sum)
      (6 + s.masterSecret.length + 2) _]
    rw [← List.drop_drop 2 (6 + s.masterSecret.length) _]
    rw [← List.drop_drop s.masterSecret.length 6 _]
    rw [hform]
    simp only [List.drop_succ_cons, List.drop_zero, List.drop_left]
    rw [hcerts, List.map_append, List.flatten_append, List.map_cons,
      List.flatten_cons]
    rw [show (pre.map fun x => 4 + x.length).sum
        = ((pre.map fun cert => u32 cert.length ++ cert).flatten).length
        from (flattenCerts_length pre).symm]
    rw [List.drop_left]
    simp only [u32, List.cons_append, List.nil_append, List.getD_cons_zero,
      List.getD_cons_succ]
    unfold r32
    omega
  · rw [hform13]
    simp only [List.getD_cons_zero, List.getD_cons_succ]
    unfold r16
    omega
  · rw [← List.drop_drop t.resumptionSecret.length 22 _, hform13]
    simp only [List.drop_succ_cons, List.drop_zero, List.drop_left]
    simp only [List.getD_cons_zero, List.getD_cons_succ]
    unfold r16
    omega
  · rw [show 24 + t.resumptionSecret.length + t.alpnProtocol.length
        = 22 + t.resumptionSecret.length + 2 + t.alpnProtocol.length
        from by omega]
    rw [← List.drop_drop t.alpnProtocol.length
      (22 + t.resumptionSecret.length + 2) _]
    rw [← List.drop_drop 2 (22 + t.resumptionSecret.length) _]
    rw [← List.drop_drop t.resumptionSecret.length 22 _]
    rw [hform13]
    simp only [List.drop_succ_cons, List.drop_zero, List.drop_left]
    simp only [List.getD_cons_zero, List.getD_cons_succ]
    unfold r16
    omega
  · rw [hform13]
    simp only [List.length_cons, List.length_append]
    omega

theorem claim7_amended_deterministic_truncation_witness :
    (⟨0, 0, [], [[1], [2, 3]], false⟩ : sessionState).certificates
        = [[1]] ++ [2, 3] :: []
    ∧ r32 (((sessionState.marshal ⟨0, 0, [], [[1], [2, 3]], false⟩).drop
          (8 + (⟨0, 0, [], [[1], [2, 3]], false⟩ : sessionState).masterSecret.length +
            (([[1]] : List (List Nat)).map fun x => 4 + x.length).sum)).getD 0 0)
        (((sessionState.marshal ⟨0, 0, [], [[1], [2, 3]], false⟩).drop
          (8 + (⟨0, 0, [], [[1], [2, 3]], false⟩ : sessionState).masterSecret.length +
            (([[1]] : List (List Nat)).map fun x => 4 + x.length).sum)).getD 1 0)
        (((sessionState.marshal ⟨0, 0, [], [[1], [2, 3]], false⟩).drop
          (8 + (⟨0, 0, [], [[1], [2, 3]], false⟩ : sessionState).masterSecret.length +
            (([[1]] : List (List Nat)).map fun x => 4 + x.length).sum)).getD 2 0)
        (((sessionState.marshal ⟨0, 0, [], [[1], [2, 3]], false⟩).drop
          (8 + (⟨0, 0, [], [[1], [2, 3]], false⟩ : sessionState).masterSecret.length +
            (([[1]] : List (List Nat)).map fun x => 4 + x.length).sum)).getD 3 0)
        = ([2, 3] : List Nat).length % 4294967296 :=
  ⟨by decide,
   (claim7_amended_deterministic_truncation ⟨0, 0, [], [[1], [2, 3]], false⟩
     ⟨0, 0, 0, 0, 0, [], [], []⟩).2.2.2.1 [[1]] [2, 3] [] (by decide)⟩

/-- Claim C8 counterexample: two v1.2 states that differ in the `usedOldKey`
field are reported equal by the `equal` method — `equal` is not "true iff
every field is equal", because it ignores `usedOldKey`. -/
theorem claim8_equal_counterexample :
    sessionState.equal ⟨0, 0, [], [], false⟩
        (ticketSessionValue.v12 ⟨0, 0, [], [], true⟩) = true
    ∧ (⟨0, 0, [], [], false⟩ : sessionState) ≠ ⟨0, 0, [], [], true⟩ := by
  decide

/-- Claim C8 amended: `equal` is field-wise over the serialized fields — the
v1.2 method returns true iff `vers`, `cipherSuite`, `masterSecret` (by
content) and `certificates` (by content) all agree, ignoring the
`usedOldKey` bookkeeping flag; the v1.3 method returns true iff all eight
fields agree; and either method returns false on a value of the other
shape. -/
theorem claim8_amended_equal_fieldwise (s s1 : sessionState)
    (t t1 : sessionState13) :
    (sessionState.equal s (.v12 s1) = true ↔
      s.vers = s1.vers ∧ s.cipherSuite = s1.cipherSuite ∧
      s.masterSecret = s1.masterSecret ∧ s.certificates = s1.certificates)
  ∧ sessionState.equal s (.v13 t) = false
  ∧ (sessionState13.equal t (.v13 t1) = true ↔
      t.vers = t1.vers ∧ t.suite = t1.suite ∧ t.ageAdd = t1.ageAdd ∧
      t.createdAt = t1.createdAt ∧ t.maxEarlyDataLen = t1.maxEarlyDataLen ∧
      t.resumptionSecret = t1.resumptionSecret ∧
      t.alpnProtocol = t1.alpnProtocol ∧ t.SNI = t1.SNI)
  ∧ sessionState13.equal t (.v12 s) = false :=
  ⟨sessionState_equal_iff s s1, rfl, sessionState13_equal_iff t t1, rfl⟩
